import Mathlib

/-!
Shallow embedding of the semantic-analysis core of the cairo-lang-rs
compiler front-end (src/compiler/sema and src/parser/ast.rs), together
with proofs about the embedded operations.

Conventions:
* Rust `Vec`/slices become `List`; `HashMap` becomes an association list
  (`alookup`/`ainsert` below) — the map API used by the source is only
  `get`/`insert`/`contains_key`, which the association list models
  exactly; insertion order of the list is a modelling artifact that the
  source never observes.
* `Rc<T>` has value semantics in the source (never mutated through the
  `Rc`), so it is dropped.
* Fallible Rust functions return `Res α`: `.err` models a returned
  `Err(CairoError)`, `.panicked` models a Rust panic (e.g.
  `Vec::remove(0)` on an empty vector inside `ScopedName::split`, or the
  `expect` inside `ScopeTracker::current_scope`), and `.outOfFuel` is the
  verdict of a fuel-bounded computation whose source loop/recursion has
  not finished within the given fuel (the Rust code has no fuel bound).
* The lexer/parser is out of scope for the spec (a black-box producer of
  the AST), so module sources are modelled as already-parsed
  `CairoFile` values and the module reader as `String → Option CairoFile`.
-/

namespace CairoRs

/-- Association-list lookup, modelling `HashMap::get`. -/
@[simp]
def alookup {κ ν : Type} [DecidableEq κ] : List (κ × ν) → κ → Option ν
  | [], _ => none
  | (k, v) :: rest, key => if k = key then some v else alookup rest key

/-- Association-list insert, modelling `HashMap::insert` (replace the
existing binding for the key, otherwise append a new one). -/
@[simp]
def ainsert {κ ν : Type} [DecidableEq κ] : List (κ × ν) → κ → ν → List (κ × ν)
  | [], key, value => [(key, value)]
  | (k, v) :: rest, key, value =>
    if k = key then (key, value) :: rest else (k, v) :: ainsert rest key value

/-- Byte-offset pair attached to every syntactic construct
(`parser/ast.rs`: `pub struct Loc(pub usize, pub usize)`). -/
structure Loc where
  start : Nat
  stop : Nat
  deriving DecidableEq, Repr

/-- `Loc`'s `Display` is `"{start}:{stop}"`. -/
@[simp]
def Loc.render (l : Loc) : String := toString l.start ++ ":" ++ toString l.stop

instance : Inhabited Loc := ⟨⟨0, 0⟩⟩

/-- `Identifier` from `parser/ast.rs`: a dotted name as its segments. -/
abbrev Identifier := List String

/-- `ScopedName` (`compiler/sema/mod.rs`): wrapper around an `Identifier`.
Modelled directly as its segment list. -/
abbrev ScopedName := List String

namespace ScopedName

/-- `ScopedName::root()`: the empty scope. -/
@[simp]
def root : ScopedName := []

/-- `ScopedName::appended(id)`. -/
@[simp]
def appended (s : ScopedName) (id : String) : ScopedName := s ++ [id]

/-- Modelled from the spec: `ScopedName::extended` is used by
`Identifiers::get`/`search` in `identifiers.rs` but its definition is
missing from src; spec §3 lists `extended` among the `ScopedName`
operations (concatenate the segments of the other name). -/
@[simp]
def extended (s t : ScopedName) : ScopedName := s ++ t

/-- Modelled from the spec: `ScopedName::rev_split` is used by
`Identifiers::search` but its definition is missing from src; spec §3:
"`rev_split` (rest + last)". -/
@[simp]
def revSplit (s : ScopedName) : ScopedName × Option String := (s.dropLast, s.getLast?)

/-- `ScopedName::name()`: the dotted rendering. -/
@[simp]
def dotted (s : ScopedName) : String := String.intercalate "." s

/-- The `Display`/`ToString` of `ScopedName` joins the segments with the
EMPTY separator (`mod.rs` line 145: `self.0.join("")`). -/
@[simp]
def display (s : ScopedName) : String := String.join s

/-- `ScopedName::from_str`: split on `.`; asserts the string is non-empty
(a panic on the empty string). -/
@[simp]
def fromStr (s : String) : ScopedName := s.splitOn "."

/-- `ScopedName::main_scope()`. -/
@[simp]
def mainScope : ScopedName := ["__main__"]

end ScopedName

/-- `TypeStruct` (`parser/ast.rs`): a named type reference. -/
structure TypeStruct where
  name : Identifier
  is_fully_resolved : Bool
  loc : Loc
  deriving DecidableEq, Repr

mutual
/-- `CairoType` (`parser/ast.rs`). -/
inductive CairoType : Type where
  | felt
  | id (ts : TypeStruct)
  | tuple (elems : List CairoType)
  | pointer (p : PointerType)

/-- `PointerType` (`parser/ast.rs`): single `*` or double `**` pointer. -/
inductive PointerType : Type where
  | single (t : CairoType)
  | double (t : CairoType)
end

namespace CairoType

/-- Modelled from the spec: `CairoType::FELT_SIZE` is used by
`Identifiers::get_size` but missing from the src `parser/ast.rs`;
spec §3: "felt = 1". -/
@[simp]
def FELT_SIZE : Nat := 1

/-- Modelled from the spec: `CairoType::POINTER_SIZE`; spec §3:
"pointer = 1". -/
@[simp]
def POINTER_SIZE : Nat := 1

end CairoType

namespace PointerType

/-- Modelled from the spec: `PointerType::is_single` (used by
`Identifiers::resolve_type`, missing from src); single `*` vs double `**`. -/
@[simp]
def is_single : PointerType → Bool
  | .single _ => true
  | .double _ => false

/-- Modelled from the spec: `PointerType::into_pointee` (used by
`Identifiers::resolve_type`, missing from src): the pointed-to type. -/
@[simp]
def into_pointee : PointerType → CairoType
  | .single t => t
  | .double t => t

end PointerType

/-- `MemberDefinition` (`compiler/sema/ast.rs`). -/
structure MemberDefinition where
  offset : Nat
  name : String
  cairo_type : CairoType
  loc : Loc

/-- `StructDefinition` (`compiler/sema/ast.rs`). -/
structure StructDefinition where
  full_name : ScopedName
  members : List MemberDefinition
  size : Nat
  loc : Loc

/-- `IdentifierDefinitionType` (`compiler/sema/identifiers.rs`). The
`namespace` variant is spelled `namespaceDef` (keyword). -/
inductive IdentifierDefinitionType : Type where
  | constDef
  | label
  | reference
  | localVar
  | function
  | namespaceDef
  | struct (s : Option StructDefinition)
  | tempVar
  | rValueRef
  | alias (target : ScopedName)
  | unresolved (inner : IdentifierDefinitionType)

namespace IdentifierDefinitionType

@[simp]
def is_const : IdentifierDefinitionType → Bool
  | .constDef => true | _ => false

@[simp]
def is_label : IdentifierDefinitionType → Bool
  | .label => true | _ => false

@[simp]
def is_local_var : IdentifierDefinitionType → Bool
  | .localVar => true | _ => false

@[simp]
def is_temp_var : IdentifierDefinitionType → Bool
  | .tempVar => true | _ => false

@[simp]
def is_alias : IdentifierDefinitionType → Bool
  | .alias _ => true | _ => false

@[simp]
def is_rvalue_ref : IdentifierDefinitionType → Bool
  | .rValueRef => true | _ => false

@[simp]
def is_function : IdentifierDefinitionType → Bool
  | .function => true | _ => false

@[simp]
def is_namespace : IdentifierDefinitionType → Bool
  | .namespaceDef => true | _ => false

@[simp]
def is_struct : IdentifierDefinitionType → Bool
  | .struct _ => true | _ => false

@[simp]
def is_reference : IdentifierDefinitionType → Bool
  | .reference => true | _ => false

@[simp]
def is_unresolved : IdentifierDefinitionType → Bool
  | .unresolved _ => true | _ => false

@[simp]
def as_unresolved : IdentifierDefinitionType → Option IdentifierDefinitionType
  | .unresolved inner => some inner
  | _ => none

@[simp]
def as_struct : IdentifierDefinitionType → Option StructDefinition
  | .struct s => s
  | .unresolved inner => as_struct inner
  | _ => none

@[simp]
def as_alias : IdentifierDefinitionType → Option ScopedName
  | .alias s => some s
  | .unresolved inner => as_alias inner
  | _ => none

@[simp]
def is_unresolved_reference : IdentifierDefinitionType → Bool
  | .unresolved ty => ty.is_reference
  | _ => false

@[simp]
def is_unresolved_struct : IdentifierDefinitionType → Bool
  | .unresolved ty => ty.is_struct
  | _ => false

/-- `has_matching_type`: compares only the outer variant tags
(spec §9: "struct payloads inside Struct(Option<...>) are ignored"). -/
@[simp]
def has_matching_type (self other : IdentifierDefinitionType) : Bool :=
  match self with
  | .constDef => other.is_const
  | .label => other.is_label
  | .reference => other.is_reference
  | .localVar => other.is_local_var
  | .function => other.is_function
  | .namespaceDef => other.is_namespace
  | .struct _ => other.is_struct
  | .tempVar => other.is_temp_var
  | .rValueRef => other.is_rvalue_ref
  | .alias _ => other.is_alias
  | .unresolved _ => other.is_unresolved

/-- Stand-in for the Rust `Debug` rendering of a definition type, used only
inside diagnostic message strings (no theorem in this file depends on the
exact rendering). -/
@[simp]
def debugStr : IdentifierDefinitionType → String
  | .constDef => "ConstDef"
  | .label => "Label"
  | .reference => "Reference"
  | .localVar => "LocalVar"
  | .function => "Function"
  | .namespaceDef => "Namespace"
  | .struct _ => "Struct"
  | .tempVar => "TempVar"
  | .rValueRef => "RValueRef"
  | .alias s => "Alias(" ++ s.dotted ++ ")"
  | .unresolved inner => "Unresolved(" ++ debugStr inner ++ ")"

end IdentifierDefinitionType

/-- The error type (`error.rs` `CairoError`), restricted to the variants the
semantic core constructs. The `redefinition` and `definition` variants are
used by `identifiers.rs` but missing from the `error.rs` in src; modelled
from the spec (§7: "Redefinition(name, loc) — two non-placeholder
definitions of the same name"). Lexer/Io read failures are collapsed into
`moduleNotFound` because the reader/parser are external black boxes. -/
inductive CairoError : Type where
  | circularDependencies (ancestors : List String)
  | moduleNotFound (module : String)
  | message (msg : String)
  | invalidImport (msg : String)
  | missingIdentifier (name : ScopedName)
  | notIdentifier (name : ScopedName)
  | identifier (msg : String)
  | preprocess (msg : String)
  | notScope (name : ScopedName) (rem : Option ScopedName) (ty : IdentifierDefinitionType)
  | missingLabel (loc : Loc)
  | redefinition (name : ScopedName) (loc : Loc)
  | definition (name : ScopedName) (expected : IdentifierDefinitionType)
      (got : IdentifierDefinitionType)

/-- Result carrier for embedded Rust computations. `.err` is a returned
`Err`, `.panicked` a Rust panic, `.outOfFuel` the verdict of a
fuel-bounded loop that has not finished within the given fuel. -/
inductive Res (α : Type) : Type where
  | ok (a : α)
  | err (e : CairoError)
  | panicked
  | outOfFuel

namespace Res

@[simp]
def bind {α β : Type} : Res α → (α → Res β) → Res β
  | .ok a, f => f a
  | .err e, _ => .err e
  | .panicked, _ => .panicked
  | .outOfFuel, _ => .outOfFuel

instance : Monad Res where
  pure := Res.ok
  bind := Res.bind

@[simp]
def isOk {α : Type} : Res α → Bool
  | .ok _ => true
  | _ => false

end Res

/-- `ResolvedIdentifier` (`identifiers.rs`). -/
structure ResolvedIdentifier where
  ty : IdentifierDefinitionType
  canonical_name : ScopedName
  rem : Option ScopedName

/-- `Scope` (`identifiers.rs`): a node of the hierarchical identifier
namespace. `subscopes` and `identifiers` are `HashMap`s in the source. -/
inductive Scope : Type where
  | mk (full_name : ScopedName)
       (subscopes : List (String × Scope))
       (identifiers : List (String × IdentifierDefinitionType))

namespace Scope

@[simp]
def full_name : Scope → ScopedName
  | .mk fn _ _ => fn

@[simp]
def subscopes : Scope → List (String × Scope)
  | .mk _ ss _ => ss

@[simp]
def identifiers : Scope → List (String × IdentifierDefinitionType)
  | .mk _ _ ids => ids

/-- `Scope::new`. -/
@[simp]
def new (full_name : ScopedName) : Scope := .mk full_name [] []

/-- `Scope::default()`: `Scope::new(ScopedName::root())`. -/
@[simp]
def root : Scope := new ScopedName.root

/-- `Scope::get` (`identifiers.rs` lines 355-374). The source first splits
the name (`ScopedName::split` panics on the empty name), descends into a
sub-scope when there is a remainder and the head names one, and otherwise
answers from this scope's identifier map. -/
@[simp]
def get (s : Scope) : List String → Res ResolvedIdentifier
  | [] => .panicked
  | n :: rest =>
    let canonical : ScopedName := s.full_name.appended n
    let rem : Option ScopedName := if rest.isEmpty then none else some rest
    let fallback : Res ResolvedIdentifier :=
      match alookup s.identifiers n with
      | some ty => .ok ⟨ty, canonical, rem⟩
      | none =>
        if (alookup s.subscopes n).isSome then .err (.notIdentifier canonical)
        else .err (.missingIdentifier canonical)
    match rest with
    | [] => fallback
    | r :: rs =>
      match alookup s.subscopes n with
      | some sub => sub.get (r :: rs)
      | none => fallback

/-- `Scope::get_scope` (`identifiers.rs` lines 388-407). Note the source
only returns a sub-scope when a remainder is present; `get_scope([x])`
falls through to the error cases even when a sub-scope `x` exists. -/
@[simp]
def get_scope (s : Scope) : List String → Res Scope
  | [] => .ok s
  | n :: rest =>
    let descend : Res Scope :=
      match alookup s.subscopes n, rest with
      | some sub, _ :: _ => sub.get_scope rest
      | _, _ =>
        let full : ScopedName := s.full_name.appended n
        let rem : Option ScopedName := if rest.isEmpty then none else some rest
        match alookup s.identifiers n with
        | some ty => .err (.notScope full rem ty)
        | none => .err (.missingIdentifier full)
    descend

/-- `Scope::add_identifier` (`identifiers.rs` lines 415-430): walk the name,
creating intermediate scopes as needed, insert the definition at the leaf
and return the destination full name. -/
@[simp]
def add_identifier (s : Scope) : List String → IdentifierDefinitionType → Res (Scope × ScopedName)
  | [], _ => .panicked
  | [n], ty =>
    .ok (.mk s.full_name s.subscopes (ainsert s.identifiers n ty), s.full_name.appended n)
  | n :: r :: rs, ty =>
    let sub : Scope :=
      match alookup s.subscopes n with
      | some sc => sc
      | none => Scope.new (s.full_name.appended n)
    match sub.add_identifier (r :: rs) ty with
    | .ok (sub', dest) => .ok (.mk s.full_name (ainsert s.subscopes n sub') s.identifiers, dest)
    | .err e => .err e
    | .panicked => .panicked
    | .outOfFuel => .outOfFuel

end Scope

/-- `ScopeTracker` (`compiler/sema/ast.rs`): the stack of currently-active
scopes plus the one-deep `%lang` swap. -/
structure ScopeTracker where
  accessible_scopes : List ScopedName := []
  file_lang : Option String := none
  tmp_lang : Option String := none

namespace ScopeTracker

@[simp]
def enter_scope (t : ScopeTracker) (scope : ScopedName) : ScopeTracker :=
  { t with accessible_scopes := t.accessible_scopes ++ [scope] }

@[simp]
def exit_scope (t : ScopeTracker) : ScopeTracker :=
  { t with accessible_scopes := t.accessible_scopes.dropLast }

@[simp]
def enter_lang (t : ScopeTracker) (lang : Option String) : ScopeTracker :=
  { t with file_lang := lang, tmp_lang := t.file_lang }

@[simp]
def exit_lang (t : ScopeTracker) : ScopeTracker :=
  { t with file_lang := t.tmp_lang, tmp_lang := t.file_lang }

/-- `ScopeTracker::current_scope` panics (`expect`) on an empty stack;
`none` here models that panic. -/
@[simp]
def current_scope? (t : ScopeTracker) : Option ScopedName :=
  t.accessible_scopes.getLast?

/-- `ScopeTracker::next_scope(name)`: `current_scope ⊕ name`; `none` models
the panic of `current_scope` on an empty stack. -/
@[simp]
def next_scope? (t : ScopeTracker) (name : String) : Option ScopedName :=
  t.current_scope?.map (fun s => s.appended name)

end ScopeTracker

/-- `Identifiers` (`identifiers.rs`): the scope tree plus the flat map from
fully-qualified names to definitions, and the embedded scope tracker. -/
structure Identifiers where
  scope_tracker : ScopeTracker := {}
  root : Scope := Scope.root
  identifiers : List (ScopedName × IdentifierDefinitionType) := []

namespace Identifiers

/-- `Identifiers::add_identifier`: write the definition into the tree and
mirror it in the flat map under the destination returned by the tree walk. -/
@[simp]
def add_identifier (ids : Identifiers) (name : ScopedName)
    (ty : IdentifierDefinitionType) : Res Identifiers :=
  match ids.root.add_identifier name ty with
  | .ok (root', dest) =>
    .ok { ids with root := root', identifiers := ainsert ids.identifiers dest ty }
  | .err e => .err e
  | .panicked => .panicked
  | .outOfFuel => .outOfFuel

/-- `Identifiers::get_by_full_name`: direct lookup through the tree, no
alias chasing; any failure (including the panic on an empty name, which
the `is_empty` guard prevents) maps to `none`. -/
@[simp]
def get_by_full_name (ids : Identifiers) (name : ScopedName) :
    Option IdentifierDefinitionType :=
  if name.isEmpty then none
  else
    match ids.root.get name with
    | .ok resolved => if resolved.rem.isSome then none else some resolved.ty
    | _ => none

/-- The cyclic-alias diagnostic of `Identifiers::get`. The source renders
the visited `HashSet` with `{:?}` (unordered); the model renders the
visited list in insertion order — no theorem depends on the exact text. -/
@[simp]
def cyclicMsg (visited : List ScopedName) (current : ScopedName) : String :=
  "Cyclic aliasing detected: " ++ String.intercalate ", " (visited.map ScopedName.dotted)
    ++ " " ++ current.display

/-- The alias-chasing loop of `Identifiers::get` (`identifiers.rs` lines
246-261), bounded by fuel: while the resolved definition is an alias,
rewrite the current name to the alias target extended with any unconsumed
remainder, fail on a revisit, and look the new name up from the root. -/
def getLoop (root : Scope) : Nat → List ScopedName → ResolvedIdentifier →
    Res ResolvedIdentifier
  | fuel, visited, resolved =>
    match resolved.ty.as_alias with
    | none => .ok resolved
    | some target =>
      match fuel with
      | 0 => .outOfFuel
      | fuel + 1 =>
        let current : ScopedName :=
          match resolved.rem with
          | some rem => target.extended rem
          | none => target
        if visited.contains current then
          .err (.identifier (cyclicMsg visited current))
        else
          match root.get current with
          | .ok r => getLoop root fuel (current :: visited) r
          | .err e => .err e
          | .panicked => .panicked
          | .outOfFuel => .outOfFuel

/-- `Identifiers::get` (`identifiers.rs` lines 241-263) with fuel for the
alias-chasing loop. -/
@[simp]
def get (ids : Identifiers) (fuel : Nat) (name : ScopedName) :
    Res ResolvedIdentifier :=
  match ids.root.get name with
  | .ok resolved => getLoop ids.root fuel [name] resolved
  | .err e => .err e
  | .panicked => .panicked
  | .outOfFuel => .outOfFuel

/-- `Identifiers::get_scope` (`identifiers.rs` lines 266-295) with fuel for
the alias-resolution loop. -/
@[simp]
def get_scope (ids : Identifiers) : Nat → List ScopedName → ScopedName → Res Scope
  | 0, _, _ => .outOfFuel
  | fuel + 1, visited, current =>
    if visited.contains current then
      .err (.identifier ("Alias resolution failed "
        ++ String.intercalate ", " (visited.map ScopedName.dotted) ++ ", " ++ current.display))
    else
      match ids.root.get_scope current with
      | .ok scope => .ok scope
      | .err (.notScope scope rem ty) =>
        match ty with
        | .alias destination =>
          let next : ScopedName :=
            match rem with
            | some rem => destination.appended rem.dotted
            | none => destination
          ids.get_scope fuel (current :: visited) next
        | _ => .err (.notScope scope rem ty)
      | .err e => .err e
      | .panicked => .panicked
      | .outOfFuel => .outOfFuel

/-- `Identifiers::search` (`identifiers.rs` lines 159-183): try each
accessible scope, innermost (last) first; a `MissingIdentifier` whose
missing prefix covers the scope prefix lets the search continue outward.
The scope list argument is already reversed (innermost first). -/
@[simp]
def searchRev (ids : Identifiers) (fuel : Nat) (name : ScopedName) :
    List ScopedName → Res ResolvedIdentifier
  | [] => .err (.missingIdentifier (name.revSplit).1)
  | scope :: outer =>
    match ids.get fuel (scope.extended name) with
    | .ok r => .ok r
    | .err (.missingIdentifier errName) =>
      let nameInit := (name.revSplit).1
      if ((scope.extended nameInit).dotted).startsWith errName.dotted then
        ids.searchRev fuel name outer
      else
        .err (.missingIdentifier errName)
    | .err e => .err e
    | .panicked => .panicked
    | .outOfFuel => .outOfFuel

@[simp]
def search (ids : Identifiers) (fuel : Nat) (name : ScopedName)
    (accessible_scopes : List ScopedName) : Res ResolvedIdentifier :=
  ids.searchRev fuel name accessible_scopes.reverse

/-- `Identifiers::get_canonical_struct_name` (`identifiers.rs` 74-85). -/
@[simp]
def get_canonical_struct_name (ids : Identifiers) (fuel : Nat)
    (struct_name : ScopedName) : Res ScopedName :=
  match ids.search fuel struct_name ids.scope_tracker.accessible_scopes with
  | .ok def_ =>
    if def_.ty.is_struct || def_.ty.is_unresolved_struct then .ok def_.canonical_name
    else
      .err (.preprocess ("Expected " ++ def_.canonical_name.display
        ++ " to a a struct, found " ++ def_.ty.debugStr))
  | .err e => .err e
  | .panicked => .panicked
  | .outOfFuel => .outOfFuel

mutual
/-- `Identifiers::resolve_type` (`identifiers.rs` lines 42-71): rewrite a
`CairoType` so every named reference is canonical and fully resolved. -/
@[simp]
def resolve_type (ids : Identifiers) (fuel : Nat) : (ty : CairoType) → Res CairoType
  | .felt => .ok .felt
  | .id ty =>
    if ty.is_fully_resolved then .ok (.id ty)
    else
      match ids.get_canonical_struct_name fuel ty.name with
      | .ok name => .ok (.id ⟨name, true, ty.loc⟩)
      | .err e => .err e
      | .panicked => .panicked
      | .outOfFuel => .outOfFuel
  | .tuple elems =>
    match resolve_type_list ids fuel elems with
    | .ok elems' => .ok (.tuple elems')
    | .err e => .err e
    | .panicked => .panicked
    | .outOfFuel => .outOfFuel
  | .pointer (.single pointee) =>
    -- the source reads `is_single` and recurses on `into_pointee`;
    -- matching the two pointer shapes is the same computation
    match ids.resolve_type fuel pointee with
    | .ok ty => .ok (.pointer (.single ty))
    | .err e => .err e
    | .panicked => .panicked
    | .outOfFuel => .outOfFuel
  | .pointer (.double pointee) =>
    match ids.resolve_type fuel pointee with
    | .ok ty => .ok (.pointer (.double ty))
    | .err e => .err e
    | .panicked => .panicked
    | .outOfFuel => .outOfFuel

/-- The `collect::<Result<_>>` over a tuple's element types. -/
@[simp]
def resolve_type_list (ids : Identifiers) (fuel : Nat) : (l : List CairoType) → Res (List CairoType)
  | [] => .ok []
  | t :: ts =>
    match ids.resolve_type fuel t with
    | .ok t' =>
      match resolve_type_list ids fuel ts with
      | .ok ts' => .ok (t' :: ts')
      | .err e => .err e
      | .panicked => .panicked
      | .outOfFuel => .outOfFuel
    | .err e => .err e
    | .panicked => .panicked
    | .outOfFuel => .outOfFuel
end

/-- `Identifiers::get_struct_definition` (`identifiers.rs` 88-104). -/
@[simp]
def get_struct_definition (ids : Identifiers) (fuel : Nat)
    (struct_name : ScopedName) : Res StructDefinition :=
  match ids.search fuel struct_name ids.scope_tracker.accessible_scopes with
  | .ok def_ =>
    if def_.rem.isSome then
      .err (.identifier ("Unexpected remainder for " ++ def_.canonical_name.display
        ++ " of ty " ++ def_.ty.debugStr))
    else
      match def_.ty.as_struct with
      | some struct_def => .ok struct_def
      | none =>
        .err (.preprocess ("Expected " ++ def_.canonical_name.display
          ++ " to be a struct definition but found " ++ def_.ty.debugStr))
  | .err e => .err e
  | .panicked => .panicked
  | .outOfFuel => .outOfFuel

/-- `Identifiers::get_struct_definition_no_alias` (`identifiers.rs` 107-124). -/
@[simp]
def get_struct_definition_no_alias (ids : Identifiers)
    (struct_name : ScopedName) : Res StructDefinition :=
  match ids.get_by_full_name struct_name with
  | none => .err (.missingIdentifier struct_name)
  | some def_ =>
    match def_.as_struct with
    | some struct_def => .ok struct_def
    | none => .err (.definition struct_name (.struct none) def_)

/-- `Identifiers::get_struct_size`. -/
@[simp]
def get_struct_size (ids : Identifiers) (fuel : Nat) (struct_name : ScopedName) : Res Nat :=
  match ids.get_struct_definition fuel struct_name with
  | .ok d => .ok d.size
  | .err e => .err e
  | .panicked => .panicked
  | .outOfFuel => .outOfFuel

mutual
/-- `Identifiers::get_size` (`identifiers.rs` 131-152). -/
@[simp]
def get_size (ids : Identifiers) (fuel : Nat) : (ty : CairoType) → Res Nat
  | .felt => .ok CairoType.FELT_SIZE
  | .id type_struct =>
    let scope : ScopedName := type_struct.name
    if type_struct.is_fully_resolved then
      match ids.get_struct_definition_no_alias scope with
      | .ok d => .ok d.size
      | .err e => .err e
      | .panicked => .panicked
      | .outOfFuel => .outOfFuel
    else ids.get_struct_size fuel scope
  | .tuple elems => get_size_sum ids fuel elems
  | .pointer _ => .ok CairoType.POINTER_SIZE

/-- The accumulation loop over a tuple's element sizes. -/
@[simp]
def get_size_sum (ids : Identifiers) (fuel : Nat) : (l : List CairoType) → Res Nat
  | [] => .ok 0
  | t :: ts =>
    match ids.get_size fuel t with
    | .ok n =>
      match get_size_sum ids fuel ts with
      | .ok m => .ok (n + m)
      | .err e => .err e
      | .panicked => .panicked
      | .outOfFuel => .outOfFuel
    | .err e => .err e
    | .panicked => .panicked
    | .outOfFuel => .outOfFuel
end

/-- `Identifiers::add_name_definition` (`identifiers.rs` 213-238): the
two-phase finalizer. -/
@[simp]
def add_name_definition (ids : Identifiers) (name : ScopedName)
    (ty : IdentifierDefinitionType) (loc : Loc) (require_registered_type : Bool) :
    Res Identifiers :=
  match ids.get_by_full_name name with
  | some def_ =>
    match def_.as_unresolved with
    | some unresolved =>
      if !(ty.has_matching_type unresolved) then
        .err (.preprocess ("Expected Identifier " ++ name.display ++ " to be a "
          ++ unresolved.debugStr ++ " but is " ++ ty.debugStr))
      else ids.add_identifier name ty
    | none => .err (.redefinition name loc)
  | none =>
    if require_registered_type then
      .err (.preprocess ("Identifier " ++ name.display ++ " not found"))
    else ids.add_identifier name ty

end Identifiers

/-! ### The AST (`parser/ast.rs`) -/

/-- `Builtin` (`parser/ast.rs`). -/
inductive Builtin : Type where
  | pedersen
  | rangeCheck
  | ecdsa
  | other (s : String)
  deriving DecidableEq, Repr

/-- `Decorator` (`parser/ast.rs`). -/
inductive Decorator : Type where
  | view
  | external
  | constructor
  | storageVar
  | other (s : String)
  deriving DecidableEq, Repr

/-- `Register` (`parser/ast.rs`). -/
inductive Register : Type where
  | ap
  | fp
  deriving DecidableEq, Repr

mutual
/-- `Expr` (`parser/ast.rs`). -/
inductive Expr : Type where
  | int (i : Int) (loc : Loc)
  | hexInt (s : String) (loc : Loc)
  | shortString (s : String) (loc : Loc)
  | hint (s : String) (loc : Loc)
  | register (r : Register) (loc : Loc)
  | functionCall (fc : FunctionCall)
  | id (i : Identifier) (loc : Loc)
  | deref (e : Expr) (loc : Loc)
  | subscript (e1 e2 : Expr) (loc : Loc)
  | dot (e : Expr) (field : String) (loc : Loc)
  | cast (e : Expr) (ty : CairoType) (loc : Loc)
  | parentheses (assignments : List ExprAssignment) (loc : Loc)
  | address (e : Expr) (loc : Loc)
  | neg (e : Expr) (loc : Loc)
  | pow (e1 e2 : Expr) (loc : Loc)
  | mul (e1 e2 : Expr) (loc : Loc)
  | div (e1 e2 : Expr) (loc : Loc)
  | add (e1 e2 : Expr) (loc : Loc)
  | sub (e1 e2 : Expr) (loc : Loc)

/-- `ExprAssignment` (`parser/ast.rs`): `expr | id = expr`. -/
inductive ExprAssignment : Type where
  | expr (e : Expr)
  | id (lhs : String) (rhs : Expr)

/-- `FunctionCall` (`parser/ast.rs`). -/
inductive FunctionCall : Type where
  | mk (id : Identifier) (implicit_args : Option (List ExprAssignment))
       (args : List ExprAssignment) (loc : Loc)
end

/-- `BoolExpr` (`parser/ast.rs`). -/
inductive BoolExpr : Type where
  | equal (lhs rhs : Expr)
  | notEqual (lhs rhs : Expr)

/-- `TypedIdentifier` (`parser/ast.rs`). -/
structure TypedIdentifier where
  is_local : Bool
  id : String
  ty : Option CairoType
  loc : Loc

/-- Modelled from the spec: `TypedIdentifier::get_type` (used by
`StructCollectorPass`, missing from src): the declared type, defaulting to
`felt` (spec §8 scenario 5 gives an untyped argument size 1 at the felt
offset). -/
@[simp]
def TypedIdentifier.get_type (t : TypedIdentifier) : CairoType :=
  t.ty.getD .felt

/-- `ConstantDef` (`parser/ast.rs`). -/
structure ConstantDef where
  name : String
  init : Expr
  loc : Loc

/-- `MemberInfo` (`parser/ast.rs`). -/
structure MemberInfo where
  name : String
  ty : CairoType
  loc : Loc

/-- `StructDef` (`parser/ast.rs`): a `struct` AST node. -/
structure StructDef where
  decorators : List Decorator
  name : String
  members : List MemberInfo
  loc : Loc

/-- `AliasedId` (`parser/ast.rs`): `x as y`. The `alias` field is spelled
`aliasId` (`alias` is a Lean command token). -/
structure AliasedId where
  id : String
  aliasId : Option String
  loc : Loc

/-- `AliasedId::identifier()`: the alias when present, else the id. -/
@[simp]
def AliasedId.identifier (a : AliasedId) : String :=
  match a.aliasId with
  | some al => al
  | none => a.id

/-- `FunctionImport` (`parser/ast.rs`). -/
inductive FunctionImport : Type where
  | direct (loc : Loc) (ids : List AliasedId)
  | parantheses (loc : Loc) (ids : List AliasedId)

@[simp]
def FunctionImport.aliased_identifier : FunctionImport → List AliasedId
  | .direct _ ids => ids
  | .parantheses _ ids => ids

/-- `ImportDirective` (`parser/ast.rs`). -/
structure ImportDirective where
  loc : Loc
  path : Identifier
  functions : FunctionImport

/-- `ImportDirective::name()`: the dotted module path. -/
@[simp]
def ImportDirective.name (i : ImportDirective) : String := String.intercalate "." i.path

@[simp]
def ImportDirective.aliased_identifier (i : ImportDirective) : List AliasedId :=
  i.functions.aliased_identifier

/-- `Directive` (`parser/ast.rs`): `%lang` or `%builtins`. -/
inductive Directive : Type where
  | lang (loc : Loc) (id : Identifier)
  | builtins (loc : Loc) (builtins : List Builtin)

/-- `Call` (`parser/ast.rs`). -/
inductive Call : Type where
  | rel (e : Expr)
  | abs (e : Expr)
  | id (i : Identifier)

/-- `RValue` (`parser/ast.rs`). -/
inductive RValue : Type where
  | call (c : Call)
  | expr (e : Expr)

/-- `Jmp` (`parser/ast.rs`). -/
inductive Jmp : Type where
  | rel (e : Expr)
  | abs (e : Expr)
  | id (i : Identifier)
  | relIf (lhs rhs : Expr) (n : Int)
  | idIf (i : Identifier) (rhs : Expr) (n : Int)

/-- `RefBinding` (`parser/ast.rs`). -/
inductive RefBinding : Type where
  | id (t : TypedIdentifier)
  | list (ts : List TypedIdentifier)

mutual
/-- `Instruction` (`parser/ast.rs`): every statement kind. -/
inductive Instruction : Type where
  | Const (c : ConstantDef)
  | Member (t : TypedIdentifier) (loc : Loc)
  | Let (b : RefBinding) (rv : RValue) (loc : Loc)
  | Local (t : TypedIdentifier) (e : Option Expr) (loc : Loc)
  | Tempvar (t : TypedIdentifier) (e : Option Expr) (loc : Loc)
  | Assert (lhs rhs : Expr) (loc : Loc)
  | StaticAssert (lhs rhs : Expr) (loc : Loc)
  | Return (vals : List ExprAssignment) (loc : Loc)
  | ReturnFunctionCall (fc : FunctionCall) (loc : Loc)
  | If (i : IfStatement)
  | Label (i : Identifier) (loc : Loc)
  | Function (f : FunctionDef)
  | FunctionCall (fc : FunctionCall)
  | Struct (s : StructDef)
  | Namespace (n : Namespace)
  | WithAttrStatement (w : WithAttrStatement)
  | WithStatement (w : WithStatement)
  | Hint (s : String) (loc : Loc)
  | Directive (d : Directive)
  | Import (i : ImportDirective)
  | AllocLocals (loc : Loc)
  | Assign (lhs rhs : Expr) (loc : Loc)
  | Jmp (j : Jmp) (loc : Loc)
  | CallInstruction (c : Call)
  | Ret (loc : Loc)
  | ApAddAssign (e : Expr) (loc : Loc)
  | ApAdd (i : Instruction) (loc : Loc)
  | DataWord (e : Expr) (loc : Loc)

/-- `IfStatement` (`parser/ast.rs`). -/
inductive IfStatement : Type where
  | mk (cond : BoolExpr) (instructions : List Instruction)
       (else_branch : Option (List Instruction))
       (label_neq : Option String) (label_end : Option String) (loc : Loc)

/-- `FunctionDef` (`parser/ast.rs`). -/
inductive FunctionDef : Type where
  | mk (decorators : List Decorator) (name : String)
       (implicit_args : Option (List TypedIdentifier))
       (input_args : List TypedIdentifier)
       (return_values : Option (List TypedIdentifier))
       (instructions : List Instruction) (loc : Loc)

/-- `Namespace` (`parser/ast.rs`). -/
inductive Namespace : Type where
  | mk (decorators : List Decorator) (name : String)
       (instructions : List Instruction) (loc : Loc)

/-- `WithStatement` (`parser/ast.rs`). -/
inductive WithStatement : Type where
  | mk (ids : List AliasedId) (instructions : List Instruction) (loc : Loc)

/-- `WithAttrStatement` (`parser/ast.rs`). -/
inductive WithAttrStatement : Type where
  | mk (id : String) (attr_val : Option (List String))
       (instructions : List Instruction) (loc : Loc)
end

namespace IfStatement

@[simp]
def cond : IfStatement → BoolExpr | .mk c _ _ _ _ _ => c
@[simp]
def instructions : IfStatement → List Instruction | .mk _ i _ _ _ _ => i
@[simp]
def else_branch : IfStatement → Option (List Instruction) | .mk _ _ e _ _ _ => e
@[simp]
def label_neq : IfStatement → Option String | .mk _ _ _ l _ _ => l
@[simp]
def label_end : IfStatement → Option String | .mk _ _ _ _ l _ => l
@[simp]
def loc : IfStatement → Loc | .mk _ _ _ _ _ l => l

@[simp]
def withBodies (i : IfStatement) (instrs : List Instruction)
    (els : Option (List Instruction)) : IfStatement :=
  .mk i.cond instrs els i.label_neq i.label_end i.loc

@[simp]
def withLabels (i : IfStatement) (neq lend : Option String) : IfStatement :=
  .mk i.cond i.instructions i.else_branch neq lend i.loc

end IfStatement

namespace FunctionDef

@[simp]
def decorators : FunctionDef → List Decorator | .mk d _ _ _ _ _ _ => d
@[simp]
def name : FunctionDef → String | .mk _ n _ _ _ _ _ => n
@[simp]
def implicit_args : FunctionDef → Option (List TypedIdentifier) | .mk _ _ i _ _ _ _ => i
@[simp]
def input_args : FunctionDef → List TypedIdentifier | .mk _ _ _ i _ _ _ => i
@[simp]
def return_values : FunctionDef → Option (List TypedIdentifier) | .mk _ _ _ _ r _ _ => r
@[simp]
def instructions : FunctionDef → List Instruction | .mk _ _ _ _ _ i _ => i
@[simp]
def loc : FunctionDef → Loc | .mk _ _ _ _ _ _ l => l

@[simp]
def withInstructions (f : FunctionDef) (instrs : List Instruction) : FunctionDef :=
  .mk f.decorators f.name f.implicit_args f.input_args f.return_values instrs f.loc

end FunctionDef

namespace Namespace

@[simp]
def decorators : Namespace → List Decorator | .mk d _ _ _ => d
@[simp]
def name : Namespace → String | .mk _ n _ _ => n
@[simp]
def instructions : Namespace → List Instruction | .mk _ _ i _ => i
@[simp]
def loc : Namespace → Loc | .mk _ _ _ l => l

@[simp]
def withInstructions (n : Namespace) (instrs : List Instruction) : Namespace :=
  .mk n.decorators n.name instrs n.loc

end Namespace

namespace WithStatement

@[simp]
def ids : WithStatement → List AliasedId | .mk i _ _ => i
@[simp]
def instructions : WithStatement → List Instruction | .mk _ i _ => i
@[simp]
def loc : WithStatement → Loc | .mk _ _ l => l

@[simp]
def withInstructions (w : WithStatement) (instrs : List Instruction) : WithStatement :=
  .mk w.ids instrs w.loc

end WithStatement

/-- `CairoFile` (`parser/ast.rs`): the instruction list of a file. -/
structure CairoFile where
  instructions : List Instruction

/-! ### The visitor framework (`compiler/sema/ast.rs` and the `Visitable`
impls in `parser/ast.rs`)

The Rust trait `Visitor` has one no-op default method per node kind; every
method takes the node by `&mut`.  The embedding threads an explicit state
`σ` through the hooks.  Of the passes embedded here only
`UniqueLabelPass::visit_if` actually mutates its node, and it writes
exactly the two synthesized label fields, so `visit_if` is the one hook
that returns node data: the new `label_neq`/`label_end` fields (a
read-only hook returns the existing ones).  The `visit_expr_*` hooks of
the Rust trait are omitted: no `Visitable` impl in `parser/ast.rs` ever
invokes them. -/

structure Visitor (σ : Type) where
  visit_lang : σ → Identifier → Res σ := fun s _ => .ok s
  visit_hint : σ → String → Res σ := fun s _ => .ok s
  visit_const_def : σ → ConstantDef → Res σ := fun s _ => .ok s
  visit_struct_def : σ → StructDef → Res σ := fun s _ => .ok s
  visit_with : σ → WithStatement → Res σ := fun s _ => .ok s
  visit_label : σ → Identifier → Loc → Res σ := fun s _ _ => .ok s
  visit_typed_identifier : σ → TypedIdentifier → Res σ := fun s _ => .ok s
  visit_type : σ → CairoType → Res σ := fun s _ => .ok s
  visit_unpack_binding : σ → List TypedIdentifier → RValue → Res σ := fun s _ _ => .ok s
  visit_return_value_reference : σ → TypedIdentifier → Call → Res σ := fun s _ _ => .ok s
  visit_element_reference : σ → TypedIdentifier → Expr → Res σ := fun s _ _ => .ok s
  visit_builtins : σ → List Builtin → Loc → Res σ := fun s _ _ => .ok s
  visit_import : σ → ImportDirective → Res σ := fun s _ => .ok s
  visit_function : σ → FunctionDef → Res σ := fun s _ => .ok s
  enter_namespace : σ → Namespace → Res σ := fun s _ => .ok s
  visit_if : σ → IfStatement → Res (σ × Option String × Option String) :=
    fun s n => .ok (s, n.label_neq, n.label_end)
  visit_local_var : σ → TypedIdentifier → Option Expr → Res σ := fun s _ _ => .ok s
  visit_temp_var : σ → TypedIdentifier → Option Expr → Res σ := fun s _ _ => .ok s
  visit_expr : σ → Expr → Res σ := fun s _ => .ok s
  enter_function : σ → FunctionDef → Res σ := fun s _ => .ok s
  exit_function : σ → FunctionDef → Res σ := fun s _ => .ok s
  visit_namespace : σ → Namespace → Res σ := fun s _ => .ok s
  exit_namespace : σ → Namespace → Res σ := fun s _ => .ok s

namespace Visitor

variable {σ : Type}

/-- The default body of `Visitor::visit_reference` (`compiler/sema/ast.rs`
lines 45-53): dispatch on the binding shape.  No embedded pass overrides
this method. -/
@[simp]
def visit_reference (v : Visitor σ) (s : σ) (b : RefBinding) (rvalue : RValue) : Res σ :=
  match b with
  | .id ty =>
    match rvalue with
    | .call call => v.visit_return_value_reference s ty call
    | .expr expr => v.visit_element_reference s ty expr
  | .list tys => v.visit_unpack_binding s tys rvalue

/-- `TypedIdentifier::visit` (`parser/ast.rs` 556-564). -/
@[simp]
def visitTypedIdentifier (v : Visitor σ) (s : σ) (t : TypedIdentifier) : Res σ :=
  Res.bind (v.visit_typed_identifier s t) fun s1 =>
    match t.ty with
    | some ty => v.visit_type s1 ty
    | none => .ok s1

/-- `ConstantDef::visit` (`parser/ast.rs` 540-545). -/
@[simp]
def visitConstantDef (v : Visitor σ) (s : σ) (c : ConstantDef) : Res σ :=
  Res.bind (v.visit_const_def s c) fun s1 => v.visit_expr s1 c.init

/-- `Directive::visit` (`parser/ast.rs` 775-782).  Dead code in the source:
the `Instruction::Directive` arm of `Instruction::visit` never calls it. -/
@[simp]
def visitDirective (v : Visitor σ) (s : σ) (d : Directive) : Res σ :=
  match d with
  | .lang _ id => v.visit_lang s id
  | .builtins loc builtins => v.visit_builtins s builtins loc

end Visitor

mutual

/-- `Instruction::visit` (`parser/ast.rs` lines 625-693).  Note the
`Member`, `Assert`, `StaticAssert`, `Return`, `ReturnFunctionCall`,
`FunctionCall`, `WithAttrStatement`, `Hint`, `Directive`, `AllocLocals`,
`Assign`, `Jmp`, `CallInstruction`, `Ret`, `ApAddAssign`, `ApAdd` and
`DataWord` arms are no-ops in the source — in particular directives are
never visited. -/
@[simp]
def visitInstruction {σ : Type} (v : Visitor σ) (s : σ) :
    (i : Instruction) → Res (σ × Instruction)
  | .Const c =>
    Res.bind (v.visitConstantDef s c) fun s1 => .ok (s1, .Const c)
  | .Member t loc => .ok (s, .Member t loc)
  | .Let b rv loc =>
    Res.bind (v.visit_reference s b rv) fun s1 => .ok (s1, .Let b rv loc)
  | .Local t e loc =>
    Res.bind (v.visit_local_var s t e) fun s1 =>
    Res.bind (v.visitTypedIdentifier s1 t) fun s2 =>
      match e with
      | some expr => Res.bind (v.visit_expr s2 expr) fun s3 => .ok (s3, .Local t e loc)
      | none => .ok (s2, .Local t e loc)
  | .Tempvar t e loc =>
    Res.bind (v.visit_temp_var s t e) fun s1 =>
    Res.bind (v.visitTypedIdentifier s1 t) fun s2 =>
      match e with
      | some expr => Res.bind (v.visit_expr s2 expr) fun s3 => .ok (s3, .Tempvar t e loc)
      | none => .ok (s2, .Tempvar t e loc)
  | .Assert lhs rhs loc => .ok (s, .Assert lhs rhs loc)
  | .StaticAssert lhs rhs loc => .ok (s, .StaticAssert lhs rhs loc)
  | .Return vals loc => .ok (s, .Return vals loc)
  | .ReturnFunctionCall fc loc => .ok (s, .ReturnFunctionCall fc loc)
  | .If i =>
    Res.bind (visitIfStatement v s i) fun (s1, i') => .ok (s1, .If i')
  | .Label i loc =>
    Res.bind (v.visit_label s i loc) fun s1 => .ok (s1, .Label i loc)
  | .Function f =>
    Res.bind (v.enter_function s f) fun s1 =>
    Res.bind (visitFunctionDef v s1 f) fun (s2, f') =>
    Res.bind (v.exit_function s2 f') fun s3 => .ok (s3, .Function f')
  | .FunctionCall fc => .ok (s, .FunctionCall fc)
  | .Struct sd =>
    Res.bind (v.visit_struct_def s sd) fun s1 => .ok (s1, .Struct sd)
  | .Namespace n =>
    Res.bind (v.enter_namespace s n) fun s1 =>
    Res.bind (visitNamespace v s1 n) fun (s2, n') =>
    Res.bind (v.exit_namespace s2 n') fun s3 => .ok (s3, .Namespace n')
  | .WithAttrStatement w => .ok (s, .WithAttrStatement w)
  | .WithStatement w =>
    Res.bind (visitWithStatement v s w) fun (s1, w') => .ok (s1, .WithStatement w')
  | .Hint h loc => .ok (s, .Hint h loc)
  | .Directive d => .ok (s, .Directive d)
  | .Import i =>
    Res.bind (v.visit_import s i) fun s1 => .ok (s1, .Import i)
  | .AllocLocals loc => .ok (s, .AllocLocals loc)
  | .Assign lhs rhs loc => .ok (s, .Assign lhs rhs loc)
  | .Jmp j loc => .ok (s, .Jmp j loc)
  | .CallInstruction c => .ok (s, .CallInstruction c)
  | .Ret loc => .ok (s, .Ret loc)
  | .ApAddAssign e loc => .ok (s, .ApAddAssign e loc)
  | .ApAdd i loc => .ok (s, .ApAdd i loc)
  | .DataWord e loc => .ok (s, .DataWord e loc)

/-- `Vec<Instruction>::visit`: visit each instruction in order. -/
@[simp]
def visitInstructionList {σ : Type} (v : Visitor σ) (s : σ) :
    (l : List Instruction) → Res (σ × List Instruction)
  | [] => .ok (s, [])
  | i :: rest =>
    Res.bind (visitInstruction v s i) fun (s1, i') =>
    Res.bind (visitInstructionList v s1 rest) fun (s2, rest') => .ok (s2, i' :: rest')

/-- `IfStatement::visit` (`parser/ast.rs` 1023-1032): the hook first (it
may write the synthesized labels), then the then-branch, then the
else-branch. -/
@[simp]
def visitIfStatement {σ : Type} (v : Visitor σ) (s : σ) :
    IfStatement → Res (σ × IfStatement)
  | .mk cond instrs els label_neq label_end loc =>
    Res.bind (v.visit_if s (.mk cond instrs els label_neq label_end loc))
      fun (s1, neq, lend) =>
    -- the hook's label writes do not change the children, so the
    -- traversal continues into `instrs` and `els` with the new labels
    Res.bind (visitInstructionList v s1 instrs) fun (s2, instrs') =>
    match els with
    | some e =>
      Res.bind (visitInstructionList v s2 e) fun (s3, els') =>
        .ok (s3, .mk cond instrs' (some els') neq lend loc)
    | none => .ok (s2, .mk cond instrs' none neq lend loc)

/-- `FunctionDef::visit` (`parser/ast.rs` 949-954). -/
@[simp]
def visitFunctionDef {σ : Type} (v : Visitor σ) (s : σ) :
    FunctionDef → Res (σ × FunctionDef)
  | .mk decorators name implicit_args input_args return_values instrs loc =>
    Res.bind (v.visit_function s
        (.mk decorators name implicit_args input_args return_values instrs loc)) fun s1 =>
    Res.bind (visitInstructionList v s1 instrs) fun (s2, instrs') =>
      .ok (s2, .mk decorators name implicit_args input_args return_values instrs' loc)

/-- `Namespace::visit` (`parser/ast.rs` 292-297). -/
@[simp]
def visitNamespace {σ : Type} (v : Visitor σ) (s : σ) :
    Namespace → Res (σ × Namespace)
  | .mk decorators name instrs loc =>
    Res.bind (v.visit_namespace s (.mk decorators name instrs loc)) fun s1 =>
    Res.bind (visitInstructionList v s1 instrs) fun (s2, instrs') =>
      .ok (s2, .mk decorators name instrs' loc)

/-- `WithStatement::visit` (`parser/ast.rs` 874-879). -/
@[simp]
def visitWithStatement {σ : Type} (v : Visitor σ) (s : σ) :
    WithStatement → Res (σ × WithStatement)
  | .mk ids instrs loc =>
    Res.bind (v.visit_with s (.mk ids instrs loc)) fun s1 =>
    Res.bind (visitInstructionList v s1 instrs) fun (s2, instrs') =>
      .ok (s2, .mk ids instrs' loc)

end

/-- `CairoFile::visit`. -/
@[simp]
def CairoFile.visit {σ : Type} (v : Visitor σ) (s : σ) (f : CairoFile) :
    Res (σ × CairoFile) :=
  Res.bind (visitInstructionList v s f.instructions) fun (s1, instrs') =>
    .ok (s1, ⟨instrs'⟩)

/-! ### Constants (`compiler/constants.rs`) -/

@[simp]
def N_LOCALS_CONSTANT : String := "SIZEOF_LOCALS"
@[simp]
def ARG_SCOPE : String := "Args"
@[simp]
def IMPLICIT_ARG_SCOPE : String := "ImplicitArgs"
@[simp]
def RETURN_SCOPE : String := "Return"

/-- `Builtin`'s `Display`. -/
@[simp]
def Builtin.render : Builtin → String
  | .pedersen => "pedersen"
  | .rangeCheck => "range_check"
  | .ecdsa => "ecdsa"
  | .other s => s

/-! ### Single-purpose visitors -/

/-- `LangVisitor` (`compiler/sema/ast.rs` lines 150-169; an identical
private copy lives in `passes/import.rs`): record the `%lang` identifier,
failing when one was already recorded. -/
@[simp]
def langVisitor : Visitor (Option String) :=
  { visit_lang := fun s id =>
      let idStr := ScopedName.dotted id
      if s.isSome then .err (.message ("Found two %lang directives " ++ idStr))
      else .ok (some idStr) }

/-- `LangVisitor::lang(file)`: run the visitor over the file from `None`.
The visitor never mutates the tree, so the rebuilt file is discarded. -/
@[simp]
def LangVisitor.lang (f : CairoFile) : Res (Option String) :=
  Res.bind (f.visit langVisitor none) fun (s, _) => .ok s

/-- `DirectDependenciesCollector` (`passes/import.rs` 145-161): collect
`import.name()` for every import directive. -/
@[simp]
def depsVisitor : Visitor (List String) :=
  { visit_import := fun s imp => .ok (s ++ [imp.name]) }

/-- `DirectDependenciesCollector::deps(file)`. -/
@[simp]
def DirectDependenciesCollector.deps (f : CairoFile) : Res (List String) :=
  Res.bind (f.visit depsVisitor []) fun (s, _) => .ok s

/-! ### Scope-tracking visitor hooks (`compiler/sema/ast.rs` 213-233 and
the `Visitor` impl of `Identifiers`, `identifiers.rs` 320-336) -/

namespace ScopeTracker

/-- `ScopeTracker::enter_function` as a visitor hook: push
`next_scope(f.name)`; `next_scope` panics on an empty stack. -/
@[simp]
def enter_function (t : ScopeTracker) (f : FunctionDef) : Res ScopeTracker :=
  match t.next_scope? f.name with
  | some s => .ok (t.enter_scope s)
  | none => .panicked

@[simp]
def exit_function (t : ScopeTracker) (_f : FunctionDef) : Res ScopeTracker :=
  .ok t.exit_scope

@[simp]
def enter_namespace (t : ScopeTracker) (n : Namespace) : Res ScopeTracker :=
  match t.next_scope? n.name with
  | some s => .ok (t.enter_scope s)
  | none => .panicked

@[simp]
def exit_namespace (t : ScopeTracker) (_n : Namespace) : Res ScopeTracker :=
  .ok t.exit_scope

end ScopeTracker

namespace Identifiers

/-- The `Visitor` impl of `Identifiers` delegates scope tracking to the
embedded tracker. -/
@[simp]
def enter_function (ids : Identifiers) (f : FunctionDef) : Res Identifiers :=
  Res.bind (ids.scope_tracker.enter_function f) fun t => .ok { ids with scope_tracker := t }

@[simp]
def exit_function (ids : Identifiers) (f : FunctionDef) : Res Identifiers :=
  Res.bind (ids.scope_tracker.exit_function f) fun t => .ok { ids with scope_tracker := t }

@[simp]
def enter_namespace (ids : Identifiers) (n : Namespace) : Res Identifiers :=
  Res.bind (ids.scope_tracker.enter_namespace n) fun t => .ok { ids with scope_tracker := t }

@[simp]
def exit_namespace (ids : Identifiers) (n : Namespace) : Res Identifiers :=
  Res.bind (ids.scope_tracker.exit_namespace n) fun t => .ok { ids with scope_tracker := t }

end Identifiers

/-! ### The preprocessed program (`compiler/sema/mod.rs`) -/

/-- `CairoContent`: an input file.  The source stores the raw code string
and a path whose file stem is the module name; the parser and filesystem
are external, so the model stores the stem and the parsed file. -/
structure CairoContent where
  name : String
  code : CairoFile

/-- `CairoModule` (`compiler/sema/mod.rs`). -/
structure CairoModule where
  module_name : ScopedName
  cairo_file : CairoFile

/-- `CairoModule::lang()`: `LangVisitor::lang` over the module's file. -/
@[simp]
def CairoModule.lang (m : CairoModule) : Res (Option String) :=
  LangVisitor.lang m.cairo_file

/-- `PreprocessedProgram` (`compiler/sema/mod.rs`). -/
structure PreprocessedProgram where
  codes : List CairoContent
  main_scope : ScopedName
  modules : List CairoModule
  builtins : Option (List Builtin)
  identifiers : Identifiers

/-- `PreprocessedProgram::new` (`mod.rs` 50-62). -/
@[simp]
def PreprocessedProgram.new (main_scope : ScopedName) (codes : List CairoContent) :
    PreprocessedProgram :=
  { codes := codes
    main_scope := main_scope
    modules := []
    builtins := none
    identifiers := {} }

/-! ### UniqueLabelPass (`passes/label.rs`) -/

/-- `UniqueLabelPass::next_label`: `_anon_label<N>` with a monotonically
increasing counter; `visit_if` assigns `label_neq` then `label_end`. -/
@[simp]
def uniqueLabelVisitor : Visitor Nat :=
  { visit_if := fun ctn _ =>
      .ok (ctn + 2, some ("_anon_label" ++ toString ctn),
           some ("_anon_label" ++ toString (ctn + 1))) }

/-- The per-module loop of `UniqueLabelPass::run`, threading the counter. -/
@[simp]
def uniqueLabelRunAux : Nat → List CairoModule → Res (Nat × List CairoModule)
  | ctn, [] => .ok (ctn, [])
  | ctn, m :: rest =>
    Res.bind (m.cairo_file.visit uniqueLabelVisitor ctn) fun (ctn1, file') =>
    Res.bind (uniqueLabelRunAux ctn1 rest) fun (ctn2, rest') =>
      .ok (ctn2, ⟨m.module_name, file'⟩ :: rest')

/-- `UniqueLabelPass::run` (`label.rs` 24-32). -/
@[simp]
def UniqueLabelPass.run (prg : PreprocessedProgram) : Res PreprocessedProgram :=
  Res.bind (uniqueLabelRunAux 0 prg.modules) fun (_, mods) =>
    .ok { prg with modules := mods }

/-! ### IdentifierCollectorPass (`passes/identifier.rs`) -/

/-- The state of an `IdVisitor`: the borrowed identifier table and the
run-local scope tracker. -/
structure IdSt where
  identifiers : Identifiers
  scope_tracker : ScopeTracker

namespace IdSt

/-- `IdVisitor::current_identifier`: `scope_tracker.next_scope(id)`;
`none` models the panic of `current_scope` on an empty stack. -/
@[simp]
def current_identifier (st : IdSt) (id : String) : Option ScopedName :=
  st.scope_tracker.next_scope? id

/-- `IdVisitor::add_identifier` (`identifier.rs` lines 51-69): reject any
collision unless both the existing and the new definition are unresolved
references. -/
@[simp]
def add_identifier (st : IdSt) (name : ScopedName)
    (ty : IdentifierDefinitionType) (loc : Loc) : Res IdSt :=
  match st.identifiers.get_by_full_name name with
  | some existing_def =>
    if !existing_def.is_unresolved || !ty.is_unresolved then
      .err (.redefinition name loc)
    else if !(existing_def.is_reference || existing_def.is_unresolved_reference)
        || !(ty.is_reference || ty.is_unresolved_reference) then
      .err (.redefinition name loc)
    else
      Res.bind (st.identifiers.add_identifier name ty) fun ids =>
        .ok { st with identifiers := ids }
  | none =>
    Res.bind (st.identifiers.add_identifier name ty) fun ids =>
      .ok { st with identifiers := ids }

/-- `IdVisitor::add_unresolved_identifier`. -/
@[simp]
def add_unresolved_identifier (st : IdSt) (name : ScopedName)
    (ty : IdentifierDefinitionType) (loc : Loc) : Res IdSt :=
  st.add_identifier name (.unresolved ty) loc

/-- Add an unresolved identifier at `current ⊕ id` (panic-lifting
`current_identifier`). -/
@[simp]
def add_unresolved_at (st : IdSt) (id : String)
    (ty : IdentifierDefinitionType) (loc : Loc) : Res IdSt :=
  match st.current_identifier id with
  | some name => st.add_unresolved_identifier name ty loc
  | none => .panicked

/-- `IdVisitor::handle_function_arguments` (`identifier.rs` 80-99). -/
@[simp]
def handle_function_arguments (st : IdSt) (function_scope : ScopedName) :
    List TypedIdentifier → Res IdSt
  | [] => .ok st
  | arg_id :: rest =>
    if arg_id.id = N_LOCALS_CONSTANT then
      .err (.preprocess ("The name " ++ N_LOCALS_CONSTANT
        ++ " is reserved and cannot be used as argument " ++ arg_id.loc.render))
    else
      Res.bind (st.add_unresolved_identifier (function_scope.appended arg_id.id)
          .reference arg_id.loc) fun st1 =>
        st1.handle_function_arguments function_scope rest

/-- The loop of `IdVisitor::visit_with` over the aliased ids. -/
@[simp]
def visit_with_ids (st : IdSt) (loc : Loc) : List AliasedId → Res IdSt
  | [] => .ok st
  | id :: rest =>
    match id.aliasId with
    | some al =>
      Res.bind (st.add_unresolved_at al .reference loc) fun st1 =>
        st1.visit_with_ids loc rest
    | none => st.visit_with_ids loc rest

/-- The loop of `IdVisitor::visit_unpack_binding` (ids not named `_`). -/
@[simp]
def visit_unpack_ids (st : IdSt) : List TypedIdentifier → Res IdSt
  | [] => .ok st
  | id :: rest =>
    if id.id ≠ "_" then
      Res.bind (st.add_unresolved_at id.id .reference id.loc) fun st1 =>
        st1.visit_unpack_ids rest
    else st.visit_unpack_ids rest

/-- The loop of `IdVisitor::visit_import` (`identifier.rs` 167-182) over
the aliased identifiers: validate the alias destination, then record the
alias. -/
@[simp]
def visit_import_items (st : IdSt) (fuel : Nat) (path : Identifier) (loc : Loc) :
    List AliasedId → Res IdSt
  | [] => .ok st
  | item :: rest =>
    let alias_dest : ScopedName := ScopedName.appended path item.id
    let validated : Res Unit :=
      if (st.identifiers.get_by_full_name alias_dest).isNone then
        Res.bind (st.identifiers.get_scope fuel [] alias_dest) fun _ => .ok ()
      else .ok ()
    Res.bind validated fun _ =>
    match st.current_identifier item.identifier with
    | none => .panicked
    | some name =>
      Res.bind (st.add_identifier name (.alias alias_dest) loc) fun st1 =>
        st1.visit_import_items fuel path loc rest

/-- The implicit-argument name-collision check of `IdVisitor::visit_function`
(`identifier.rs` 216-228). -/
@[simp]
def collision_check (implicit_arg_names : List String) :
    List TypedIdentifier → Res Unit
  | [] => .ok ()
  | arg_id :: rest =>
    if implicit_arg_names.contains arg_id.id then
      .err (.preprocess ("Arguments and return values cannot have the same name of an implicit argument "
        ++ arg_id.id ++ " at " ++ arg_id.loc.render))
    else collision_check implicit_arg_names rest

end IdSt

/-- `IdVisitor` as a visitor instance (`identifier.rs` 102-301).  `fuel`
bounds the alias-resolution loop reachable through `visit_import`. -/
@[simp]
def idVisitor (fuel : Nat) : Visitor IdSt :=
  { visit_const_def := fun st c => st.add_unresolved_at c.name .constDef c.loc
    visit_struct_def := fun st s =>
      -- the src writes `IdentifierDefinitionType::Struct` (struct
      -- placeholder without a definition payload): `Struct(None)`
      st.add_unresolved_at s.name (.struct none) s.loc
    visit_with := fun st el => st.visit_with_ids el.loc el.ids
    visit_label := fun st id loc =>
      st.add_unresolved_at (String.intercalate "." id) .label loc
    visit_unpack_binding := fun st ids _ => st.visit_unpack_ids ids
    visit_return_value_reference := fun st id _ =>
      st.add_unresolved_at id.id .reference id.loc
    visit_element_reference := fun st id _ =>
      st.add_unresolved_at id.id .reference id.loc
    visit_import := fun st el =>
      st.visit_import_items fuel el.path el.loc el.aliased_identifier
    enter_function := fun st f =>
      Res.bind (st.scope_tracker.enter_function f) fun t =>
        .ok { st with scope_tracker := t }
    visit_function := fun st fun_ =>
      match st.scope_tracker.current_scope? with
      | none => .panicked
      | some function_scope =>
        Res.bind (st.add_unresolved_identifier function_scope .function fun_.loc) fun st1 =>
        let arg_scope := function_scope.appended ARG_SCOPE
        Res.bind (st1.add_unresolved_identifier arg_scope (.struct none) fun_.loc) fun st2 =>
        Res.bind (st2.handle_function_arguments function_scope fun_.input_args) fun st3 =>
        let afterImplicit : Res IdSt :=
          match fun_.implicit_args with
          | some implicit =>
            let implicit_arg_scope := function_scope.appended IMPLICIT_ARG_SCOPE
            Res.bind (st3.add_unresolved_identifier implicit_arg_scope (.struct none)
                fun_.loc) fun st4 =>
              st4.handle_function_arguments function_scope implicit
          | none => .ok st3
        Res.bind afterImplicit fun st5 =>
        let return_scope := function_scope.appended RETURN_SCOPE
        Res.bind (st5.add_unresolved_identifier return_scope (.struct none) fun_.loc) fun st6 =>
        let collision : Res Unit :=
          match fun_.implicit_args with
          | some implicit =>
            let implicit_arg_names := implicit.map (·.id)
            let arg_and_return_identifiers :=
              fun_.input_args ++ (match fun_.return_values with
                | some returns => returns
                | none => [])
            IdSt.collision_check implicit_arg_names arg_and_return_identifiers
          | none => .ok ()
        Res.bind collision fun _ =>
          st6.add_unresolved_identifier (function_scope.appended N_LOCALS_CONSTANT)
            .constDef fun_.loc
    exit_function := fun st f =>
      Res.bind (st.scope_tracker.exit_function f) fun t =>
        .ok { st with scope_tracker := t }
    enter_namespace := fun st n =>
      Res.bind (st.scope_tracker.enter_namespace n) fun t =>
        .ok { st with scope_tracker := t }
    visit_namespace := fun st ns =>
      -- NOTE (`identifier.rs` 245-265): unlike `visit_function`, which
      -- takes the current scope directly, this arm computes
      -- `current_identifier(ns.name)` AFTER `enter_namespace` has already
      -- pushed the namespace scope, so everything is keyed one level too
      -- deep (`s.N.N` instead of `s.N`), and no `ImplicitArgs` placeholder
      -- is registered.
      match st.current_identifier ns.name with
      | none => .panicked
      | some function_scope =>
        Res.bind (st.add_unresolved_identifier function_scope .namespaceDef ns.loc) fun st1 =>
        let arg_scope := function_scope.appended ARG_SCOPE
        Res.bind (st1.add_unresolved_identifier arg_scope (.struct none) ns.loc) fun st2 =>
        let return_scope := function_scope.appended RETURN_SCOPE
        Res.bind (st2.add_unresolved_identifier return_scope (.struct none) ns.loc) fun st3 =>
          st3.add_unresolved_identifier (function_scope.appended N_LOCALS_CONSTANT)
            .constDef ns.loc
    exit_namespace := fun st n =>
      Res.bind (st.scope_tracker.exit_namespace n) fun t =>
        .ok { st with scope_tracker := t }
    visit_if := fun st el =>
      match el.label_neq with
      | none => .err (.missingLabel el.loc)
      | some label_neq =>
        match el.label_end with
        | none => .err (.missingLabel el.loc)
        | some label_end =>
          Res.bind (st.add_unresolved_at label_neq .label el.loc) fun st1 =>
          Res.bind (st1.add_unresolved_at label_end .label el.loc) fun st2 =>
            .ok (st2, el.label_neq, el.label_end)
    visit_local_var := fun st id _ => st.add_unresolved_at id.id .reference id.loc
    visit_temp_var := fun st id _ => st.add_unresolved_at id.id .reference id.loc }

/-- The per-module loop of `IdentifierCollectorPass::run`
(`identifier.rs` 20-35). -/
@[simp]
def identifierCollectorRunAux (fuel : Nat) :
    Identifiers → ScopeTracker → List CairoModule →
    Res (Identifiers × ScopeTracker × List CairoModule)
  | ids, tracker, [] => .ok (ids, tracker, [])
  | ids, tracker, m :: rest =>
    let tracker1 := tracker.enter_scope m.module_name
    Res.bind m.lang fun lang =>
    let tracker2 := tracker1.enter_lang lang
    Res.bind (m.cairo_file.visit (idVisitor fuel) ⟨ids, tracker2⟩) fun (st, file') =>
    let tracker3 := st.scope_tracker.exit_scope
    let tracker4 := tracker3.exit_lang
    Res.bind (identifierCollectorRunAux fuel st.identifiers tracker4 rest)
      fun (ids', tracker', rest') =>
        .ok (ids', tracker', ⟨m.module_name, file'⟩ :: rest')

/-- `IdentifierCollectorPass::run`. -/
@[simp]
def IdentifierCollectorPass.run (fuel : Nat) (prg : PreprocessedProgram) :
    Res PreprocessedProgram :=
  Res.bind (identifierCollectorRunAux fuel prg.identifiers {} prg.modules)
    fun (ids, _, mods) =>
      .ok { prg with identifiers := ids, modules := mods }

/-! ### DirectivesCollectorPass (`passes/directives.rs`) -/

/-- The pass state (`directives.rs` lines 11-15). -/
structure DirectivesSt where
  builtins : List Builtin := []
  builtins_set : Bool := false

/-- The duplicate scan over a `%builtins` list: the source inserts each
builtin into a `HashSet` and fails on the first that was already present. -/
@[simp]
def firstDuplicateBuiltin : List Builtin → List Builtin → Option Builtin
  | _, [] => none
  | seen, b :: rest =>
    if seen.contains b then some b else firstDuplicateBuiltin (b :: seen) rest

/-- `DirectivesCollectorPass::visit_builtins` (`directives.rs` 30-50).
NOTE: the source never sets `builtins_set` to `true`, so the
redefinition branch is unreachable in any run. -/
@[simp]
def directivesVisitBuiltins (st : DirectivesSt) (builtins : List Builtin)
    (loc : Loc) : Res DirectivesSt :=
  if st.builtins_set then
    .err (.preprocess ("Redefinition of builtins directive: " ++ loc.render))
  else
    match firstDuplicateBuiltin [] builtins with
    | some b =>
      .err (.preprocess ("Builtin " ++ b.render ++ " appears twice in builtins directive"))
    | none => .ok { st with builtins := builtins }

@[simp]
def directivesVisitor : Visitor DirectivesSt :=
  { visit_builtins := fun st bs loc => directivesVisitBuiltins st bs loc }

/-- The per-module loop of `DirectivesCollectorPass::run`
(`directives.rs` 19-27): the same pass object visits every module. -/
@[simp]
def directivesRunAux : DirectivesSt → List CairoModule →
    Res (DirectivesSt × List CairoModule)
  | st, [] => .ok (st, [])
  | st, m :: rest =>
    Res.bind (m.cairo_file.visit directivesVisitor st) fun (st1, file') =>
    Res.bind (directivesRunAux st1 rest) fun (st2, rest') =>
      .ok (st2, ⟨m.module_name, file'⟩ :: rest')

/-- `DirectivesCollectorPass::run` with a fresh (default) pass state. -/
@[simp]
def DirectivesCollectorPass.run (prg : PreprocessedProgram) : Res PreprocessedProgram :=
  Res.bind (directivesRunAux {} prg.modules) fun (_, mods) =>
    .ok { prg with modules := mods }

/-! ### StructCollectorPass (`passes/struct_collect.rs`) -/

/-- The member loop of `StructVisitor::add_struct_def`
(`struct_collect.rs` 53-69): resolve each member type, reject duplicate
member names, accumulate offsets. -/
@[simp]
def addStructDefMembers (ids : Identifiers) (fuel : Nat) (struct_name : ScopedName)
    (loc : Loc) : Nat → List MemberDefinition → List MemberInfo →
    Res (Nat × List MemberDefinition)
  | offset, members, [] => .ok (offset, members)
  | offset, members, member_info :: rest =>
    Res.bind (ids.resolve_type fuel member_info.ty) fun cairo_type =>
    if members.any (fun m => m.name = member_info.name) then
      .err (.redefinition (struct_name.appended member_info.name) loc)
    else
      Res.bind (ids.get_size fuel cairo_type) fun size =>
        addStructDefMembers ids fuel struct_name loc (offset + size)
          (members ++ [⟨offset, member_info.name, cairo_type, member_info.loc⟩]) rest

/-- `StructVisitor::add_struct_def` (`struct_collect.rs` 47-82). -/
@[simp]
def add_struct_def (ids : Identifiers) (fuel : Nat) (members_list : List MemberInfo)
    (struct_name : ScopedName) (loc : Loc) : Res Identifiers :=
  Res.bind (addStructDefMembers ids fuel struct_name loc 0 [] members_list)
    fun (offset, members) =>
      ids.add_name_definition struct_name
        (.struct (some ⟨struct_name, members, offset, loc⟩)) loc true

/-- `StructVisitor::create_struct_from_identifier_list`
(`struct_collect.rs` 84-95). -/
@[simp]
def create_struct_from_identifier_list (ids : Identifiers) (fuel : Nat)
    (identifier_list : List TypedIdentifier) (scope : ScopedName) (loc : Loc) :
    Res Identifiers :=
  let members := identifier_list.map (fun arg =>
    (⟨arg.id, arg.get_type, arg.loc⟩ : MemberInfo))
  add_struct_def ids fuel members scope loc

/-- `StructVisitor` as a visitor instance (`struct_collect.rs` 98-157). -/
@[simp]
def structVisitor (fuel : Nat) : Visitor Identifiers :=
  { visit_struct_def := fun ids elem =>
      if !elem.decorators.isEmpty then
        .err (.preprocess ("Decorators for structs are not supported "
          ++ elem.name ++ " " ++ elem.loc.render))
      else
        match ids.scope_tracker.next_scope? elem.name with
        | none => .panicked
        | some struct_name => add_struct_def ids fuel elem.members struct_name elem.loc
    visit_function := fun ids fun_ =>
      match ids.scope_tracker.current_scope? with
      | none => .panicked
      | some function_scope =>
        let arg_scope := function_scope.appended ARG_SCOPE
        Res.bind (create_struct_from_identifier_list ids fuel fun_.input_args
            arg_scope fun_.loc) fun ids1 =>
        let afterImplicit : Res Identifiers :=
          match fun_.implicit_args with
          | some implicit =>
            let implicit_arg_scope := function_scope.appended IMPLICIT_ARG_SCOPE
            create_struct_from_identifier_list ids1 fuel implicit implicit_arg_scope fun_.loc
          | none => .ok ids1
        Res.bind afterImplicit fun ids2 =>
        let return_scope := function_scope.appended RETURN_SCOPE
        match fun_.return_values with
        | some return_args =>
          create_struct_from_identifier_list ids2 fuel return_args return_scope fun_.loc
        | none => create_struct_from_identifier_list ids2 fuel [] return_scope fun_.loc
    enter_function := fun ids f => ids.enter_function f
    exit_function := fun ids f => ids.exit_function f
    enter_namespace := fun ids n => ids.enter_namespace n
    visit_namespace := fun ids ns =>
      match ids.scope_tracker.current_scope? with
      | none => .panicked
      | some function_scope =>
        let arg_scope := function_scope.appended ARG_SCOPE
        Res.bind (create_struct_from_identifier_list ids fuel [] arg_scope ns.loc) fun ids1 =>
        let implicit_arg_scope := function_scope.appended IMPLICIT_ARG_SCOPE
        Res.bind (create_struct_from_identifier_list ids1 fuel [] implicit_arg_scope
            ns.loc) fun ids2 =>
        let return_scope := function_scope.appended RETURN_SCOPE
        create_struct_from_identifier_list ids2 fuel [] return_scope ns.loc
    exit_namespace := fun ids n => ids.exit_namespace n }

/-- The per-module loop of `StructCollectorPass::run`
(`struct_collect.rs` 20-35): scope tracking goes through the tracker
embedded in the identifier table. -/
@[simp]
def structCollectorRunAux (fuel : Nat) :
    Identifiers → List CairoModule → Res (Identifiers × List CairoModule)
  | ids, [] => .ok (ids, [])
  | ids, m :: rest =>
    let ids1 := { ids with scope_tracker := ids.scope_tracker.enter_scope m.module_name }
    Res.bind m.lang fun lang =>
    let ids2 := { ids1 with scope_tracker := ids1.scope_tracker.enter_lang lang }
    Res.bind (m.cairo_file.visit (structVisitor fuel) ids2) fun (ids3, file') =>
    let ids4 := { ids3 with scope_tracker := ids3.scope_tracker.exit_scope }
    let ids5 := { ids4 with scope_tracker := ids4.scope_tracker.exit_lang }
    Res.bind (structCollectorRunAux fuel ids5 rest) fun (ids', rest') =>
      .ok (ids', ⟨m.module_name, file'⟩ :: rest')

/-- `StructCollectorPass::run`. -/
@[simp]
def StructCollectorPass.run (fuel : Nat) (prg : PreprocessedProgram) :
    Res PreprocessedProgram :=
  Res.bind (structCollectorRunAux fuel prg.identifiers prg.modules) fun (ids, mods) =>
    .ok { prg with identifiers := ids, modules := mods }

/-! ### ImportCollector and ModuleCollectorPass (`passes/import.rs`)

The `CodeReader` interface is `read(module) → (code, path)` followed by
`CairoFile::parse`; reading and parsing are external, so a reader is
modelled as `String → Option CairoFile` (`none` covers a failed read —
rendered as `moduleNotFound` — or a parse failure). -/

/-- The collector state (`import.rs` 90-95): the ancestor stack of the
running DFS, the collected files and their `%lang` tags, both in
insertion order. -/
structure ImportSt where
  current_ancestors : List String := []
  collected_files : List (String × CairoFile) := []
  langs : List (String × Option String) := []

mutual
/-- `ImportCollector::collect_imports` (`import.rs` lines 107-141),
bounded by fuel: fail when the module is an ancestor of itself, skip it
when already collected, otherwise read and parse it, extract `%lang`,
push it on the ancestor stack, recurse into its direct dependencies
(checking `%lang` agreement after each), then pop and record it. -/
@[simp]
def collectImports (reader : String → Option CairoFile) :
    Nat → ImportSt → String → Res ImportSt
  | 0, _, _ => .outOfFuel
  | fuel + 1, st, current_module =>
    if st.current_ancestors.contains current_module then
      .err (.circularDependencies st.current_ancestors)
    else if (alookup st.collected_files current_module).isSome then
      .ok st
    else
      match reader current_module with
      | none => .err (.moduleNotFound current_module)
      | some cairo_file =>
        Res.bind (LangVisitor.lang cairo_file) fun lang =>
        let st1 := { st with current_ancestors := st.current_ancestors ++ [current_module] }
        Res.bind (DirectDependenciesCollector.deps cairo_file) fun deps =>
        Res.bind (collectDeps reader fuel st1 lang deps) fun st2 =>
          .ok { st2 with
                current_ancestors := st2.current_ancestors.dropLast
                collected_files := ainsert st2.collected_files current_module cairo_file
                langs := ainsert st2.langs current_module lang }
termination_by fuel => (fuel, 0)
decreasing_by all_goals (simp_wf; exact Prod.Lex.left _ _ (Nat.lt_succ_self _))

/-- The dependency loop of `collect_imports` (`import.rs` 129-136). -/
@[simp]
def collectDeps (reader : String → Option CairoFile) :
    Nat → ImportSt → Option String → List String → Res ImportSt
  | _, st, _, [] => .ok st
  | fuel, st, lang, pkg :: rest =>
    Res.bind (collectImports reader fuel st pkg) fun st' =>
    let same_directive :=
      match alookup st'.langs pkg with
      | some l => l == lang
      | none => true
    if !same_directive then
      .err (.invalidImport
        "importing modules with %lang directive must be from a module with the same directive")
    else collectDeps reader fuel st' lang rest
termination_by fuel _ _ l => (fuel, l.length + 1)
decreasing_by
  all_goals simp_wf
  all_goals first
    | exact Prod.Lex.left _ _ (Nat.lt_succ_self _)
    | exact Prod.Lex.right _ (Nat.lt_succ_self _)
    | exact Prod.Lex.right _ (Nat.zero_lt_succ _)
end

/-- The inner loop of `ModuleCollectorPass::run` over the files collected
for one starting module (`import.rs` 57-67): the starting file gets the
main scope; other modules are deduplicated via `visited` and keyed by
`ScopedName::from_str`. -/
@[simp]
def moduleCollectorPush (main_scope : ScopedName) (file_name : String) :
    List String → List CairoModule → List (String × CairoFile) →
    List String × List CairoModule
  | visited, acc, [] => (visited, acc)
  | visited, acc, (module_name, cairo_file) :: rest =>
    if module_name = file_name then
      moduleCollectorPush main_scope file_name visited
        (acc ++ [⟨main_scope, cairo_file⟩]) rest
    else if visited.contains module_name then
      moduleCollectorPush main_scope file_name visited acc rest
    else
      moduleCollectorPush main_scope file_name (visited ++ [module_name])
        (acc ++ [⟨ScopedName.fromStr module_name, cairo_file⟩]) rest

/-- The loop of `ModuleCollectorPass::run` over the input codes
(`import.rs` 52-68).  The per-content reader overlays the in-memory
content on the base reader (`InputCodeReader`, `import.rs` 74-87). -/
@[simp]
def moduleCollectorCodes (reader : String → Option CairoFile) (fuel : Nat)
    (main_scope : ScopedName) :
    List String → List CairoModule → List CairoContent →
    Res (List String × List CairoModule)
  | visited, acc, [] => .ok (visited, acc)
  | visited, acc, content :: rest =>
    let overlay : String → Option CairoFile := fun module =>
      if module = content.name then some content.code else reader module
    Res.bind (collectImports overlay fuel {} content.name) fun st =>
    let (visited', acc') :=
      moduleCollectorPush main_scope content.name visited acc st.collected_files
    moduleCollectorCodes reader fuel main_scope visited' acc' rest

/-- `ModuleCollectorPass::run` (`import.rs` 34-72) with an empty
`additional_modules` list (the default pass manager uses
`ModuleCollectorPass::new(reader)`). -/
@[simp]
def ModuleCollectorPass.run (reader : String → Option CairoFile) (fuel : Nat)
    (prg : PreprocessedProgram) : Res PreprocessedProgram :=
  Res.bind (moduleCollectorCodes reader fuel prg.main_scope [] [] prg.codes)
    fun (_, mods) =>
      .ok { prg with modules := prg.modules ++ mods }

/-! ### The default pass manager (`passes.rs` 56-67): ModuleCollector,
UniqueLabel, IdentifierCollector, DirectivesCollector, StructCollector,
short-circuiting on the first error. -/

@[simp]
def PassManager.run_on (reader : String → Option CairoFile) (fuel : Nat)
    (prg : PreprocessedProgram) : Res PreprocessedProgram :=
  Res.bind (ModuleCollectorPass.run reader fuel prg) fun prg1 =>
  Res.bind (UniqueLabelPass.run prg1) fun prg2 =>
  Res.bind (IdentifierCollectorPass.run fuel prg2) fun prg3 =>
  Res.bind (DirectivesCollectorPass.run prg3) fun prg4 =>
  StructCollectorPass.run fuel prg4

/-! ### Auxiliary notions used by the statements of the theorems below -/

/-- A caller-visible write to the identifier table: the two mutating
operations of `Identifiers`. -/
inductive TableOp : Type where
  | add (name : ScopedName) (ty : IdentifierDefinitionType)
  | addDef (name : ScopedName) (ty : IdentifierDefinitionType) (loc : Loc)
      (require_registered : Bool)

/-- Apply one table operation. -/
@[simp]
def applyTableOp (ids : Identifiers) : TableOp → Res Identifiers
  | .add name ty => ids.add_identifier name ty
  | .addDef name ty loc req => ids.add_name_definition name ty loc req

/-- Run a sequence of caller-issued table operations.  An operation that
returns an error leaves the table unchanged (the error is a value handed
back to the caller); a panic aborts the sequence. -/
@[simp]
def runTableOps (ids : Identifiers) : List TableOp → Res Identifiers
  | [] => .ok ids
  | op :: rest =>
    match applyTableOp ids op with
    | .ok ids' => runTableOps ids' rest
    | .err _ => runTableOps ids rest
    | .panicked => .panicked
    | .outOfFuel => .outOfFuel

/-- Well-formedness of a scope tree node sitting at path `pre`: its
`full_name` is `pre` and every sub-scope is well-formed at the extended
path (spec §3: "Every scope's `full_name` equals the concatenation of
its ancestors' last segments"). -/
inductive Scope.WF : ScopedName → Scope → Prop where
  | mk {pre : ScopedName} {s : Scope}
      (hname : s.full_name = pre)
      (hsubs : ∀ k sub, (k, sub) ∈ s.subscopes → Scope.WF (pre.appended k) sub) :
      Scope.WF pre s

mutual
/-- All `from X import …` directives of an instruction, in traversal
order (the specification-level counterpart of the visitor walk). -/
@[simp]
def instructionImports : Instruction → List ImportDirective
  | .If (.mk _ instrs els _ _ _) =>
    instructionListImports instrs ++
      (match els with
       | some els' => instructionListImports els'
       | none => [])
  | .Function (.mk _ _ _ _ _ instrs _) => instructionListImports instrs
  | .Namespace (.mk _ _ instrs _) => instructionListImports instrs
  | .WithStatement (.mk _ instrs _) => instructionListImports instrs
  | .Import i => [i]
  | _ => []

@[simp]
def instructionListImports : List Instruction → List ImportDirective
  | [] => []
  | i :: rest => instructionImports i ++ instructionListImports rest
end

/-- The direct import dependencies of a file: the module names of all of
its import directives (what `DirectDependenciesCollector` collects). -/
@[simp]
def fileDeps (f : CairoFile) : List String :=
  (instructionListImports f.instructions).map ImportDirective.name

/-- One edge of the import graph induced by a reader: `m` is readable and
names `d` in one of its import directives. -/
@[simp]
def ImportEdge (reader : String → Option CairoFile) (m d : String) : Prop :=
  ∃ f, reader m = some f ∧ d ∈ fileDeps f

/-- Reachability in the import graph. -/
@[simp]
def ImportReaches (reader : String → Option CairoFile) : String → String → Prop :=
  Relation.ReflTransGen (ImportEdge reader)

mutual
/-- Every named struct reference in the type carries
`is_fully_resolved = true`. -/
@[simp]
def CairoType.fully_resolved : CairoType → Bool
  | .felt => true
  | .id ts => ts.is_fully_resolved
  | .tuple elems => CairoType.fully_resolved_list elems
  | .pointer (.single t) => CairoType.fully_resolved t
  | .pointer (.double t) => CairoType.fully_resolved t

@[simp]
def CairoType.fully_resolved_list : List CairoType → Bool
  | [] => true
  | t :: ts => CairoType.fully_resolved t && CairoType.fully_resolved_list ts
end

/-- A visitor all of whose traversal-reachable hooks are the no-op
defaults, except `visit_import`, whose effect on the state is the pure
function `g`.  (`visit_lang`, `visit_builtins` and `visit_hint` are
deliberately absent: `Instruction::visit` never invokes them.) -/
structure PureImportHyps (σ : Type) (v : Visitor σ) (g : σ → ImportDirective → σ) : Prop where
  himp : ∀ s imp, v.visit_import s imp = .ok (g s imp)
  hconst : ∀ s c, v.visit_const_def s c = .ok s
  hstruct : ∀ s d, v.visit_struct_def s d = .ok s
  hwith : ∀ s w, v.visit_with s w = .ok s
  hlabel : ∀ s i l, v.visit_label s i l = .ok s
  htyped : ∀ s t, v.visit_typed_identifier s t = .ok s
  htype : ∀ s t, v.visit_type s t = .ok s
  hunpack : ∀ s ts r, v.visit_unpack_binding s ts r = .ok s
  hretval : ∀ s t c, v.visit_return_value_reference s t c = .ok s
  helem : ∀ s t e, v.visit_element_reference s t e = .ok s
  hfun : ∀ s f, v.visit_function s f = .ok s
  henterns : ∀ s n, v.enter_namespace s n = .ok s
  hif : ∀ s i, v.visit_if s i = .ok (s, i.label_neq, i.label_end)
  hlocal : ∀ s t e, v.visit_local_var s t e = .ok s
  htemp : ∀ s t e, v.visit_temp_var s t e = .ok s
  hexpr : ∀ s e, v.visit_expr s e = .ok s
  henterf : ∀ s f, v.enter_function s f = .ok s
  hexitf : ∀ s f, v.exit_function s f = .ok s
  hns : ∀ s n, v.visit_namespace s n = .ok s
  hexitns : ∀ s n, v.exit_namespace s n = .ok s

/-! ### Concrete fixtures for the theorems -/

/-- A module `test` whose file is a single empty `namespace N`. -/
@[simp]
def nsFile : CairoFile := ⟨[.Namespace (.mk [] "N" [] ⟨1, 2⟩)]⟩

@[simp]
def nsModule : CairoModule := ⟨["test"], nsFile⟩

/-- A file declaring a label `foo:` followed by `local foo = [ap]`
(spec §8 scenario 1). -/
@[simp]
def labelLocalFile : CairoFile := ⟨[
  .Label ["foo"] ⟨1, 4⟩,
  .Local ⟨true, "foo", none, ⟨6, 9⟩⟩ (some (.deref (.register .ap ⟨12, 14⟩) ⟨11, 15⟩)) ⟨6, 15⟩]⟩

/-- The identifier table holding the single binding `a ↦ Alias(a.a)` —
exactly what `Identifiers::add_identifier(a, Alias(a.a))` produces from
the empty table (see `claim_C4` below). -/
@[simp]
def aliasCycleTable : Identifiers :=
  { scope_tracker := {}
    root := .mk [] [] [("a", .alias ["a", "a"])]
    identifiers := [(["a"], .alias ["a", "a"])] }

/-- A program with one module containing two `%builtins pedersen`
directives. -/
@[simp]
def twoBuiltinsProgram : PreprocessedProgram :=
  { codes := []
    main_scope := ScopedName.mainScope
    modules := [⟨["test"], ⟨[
      .Directive (.builtins ⟨0, 10⟩ [.pedersen]),
      .Directive (.builtins ⟨11, 21⟩ [.pedersen])]⟩⟩]
    builtins := none
    identifiers := {} }

/-- A file with two `%lang` directives. -/
@[simp]
def twoLangFile : CairoFile := ⟨[
  .Directive (.lang ⟨0, 5⟩ ["starknet"]),
  .Directive (.lang ⟨6, 12⟩ ["other_lang"])]⟩

/-- A file with a single `%lang starknet` directive. -/
@[simp]
def oneLangFile : CairoFile := ⟨[.Directive (.lang ⟨0, 5⟩ ["starknet"])]⟩

/-- `from <m> import …` with no imported items (only the module path
matters for dependency collection). -/
@[simp]
def importInstr (m : String) : Instruction :=
  .Import ⟨⟨0, 0⟩, [m], .direct ⟨0, 0⟩ []⟩

/-- Module `a` imports `b`; module `b` imports `a` (spec §8 scenario 6). -/
@[simp]
def readerAB : String → Option CairoFile := fun m =>
  if m = "a" then some ⟨[importInstr "b"]⟩
  else if m = "b" then some ⟨[importInstr "a"]⟩
  else none

/-- A program whose only code/module content is the single `namespace N`
module. -/
@[simp]
def nsProgram : PreprocessedProgram :=
  { codes := []
    main_scope := ScopedName.mainScope
    modules := [nsModule]
    builtins := none
    identifiers := {} }

/-- A program whose only module is the label/local redefinition example. -/
@[simp]
def labelLocalProgram : PreprocessedProgram :=
  { codes := []
    main_scope := ScopedName.mainScope
    modules := [⟨["test"], labelLocalFile⟩]
    builtins := none
    identifiers := {} }

/-- The shape of the collected-files list built by a successful import
DFS: each module is appended after all of its direct dependencies, its
file is what the reader returns for it, and its name is new. -/
inductive POList (reader : String → Option CairoFile) :
    List (String × CairoFile) → Prop where
  | nil : POList reader []
  | snoc {l : List (String × CairoFile)} {m : String} {f : CairoFile}
      (hl : POList reader l) (hread : reader m = some f)
      (hdeps : ∀ d, d ∈ fileDeps f → (alookup l d).isSome = true)
      (hnew : alookup l m = none) : POList reader (l ++ [(m, f)])

/-! ## Theorems -/

namespace Res

@[simp] theorem bind_ok {α β : Type} (a : α) (f : α → Res β) :
    Res.bind (.ok a) f = f a := rfl

@[simp] theorem bind_err {α β : Type} (e : CairoError) (f : α → Res β) :
    Res.bind (.err e) f = .err e := rfl

@[simp] theorem bind_panicked {α β : Type} (f : α → Res β) :
    Res.bind .panicked f = .panicked := rfl

@[simp] theorem bind_outOfFuel {α β : Type} (f : α → Res β) :
    Res.bind .outOfFuel f = .outOfFuel := rfl

@[simp] theorem monad_bind_eq_bind {α β : Type} (x : Res α) (f : α → Res β) :
    (x >>= f) = Res.bind x f := rfl

@[simp] theorem pure_eq_ok {α : Type} (a : α) : (pure a : Res α) = .ok a := rfl

end Res

@[simp] theorem alookup_nil {κ ν : Type} [DecidableEq κ] (key : κ) :
    alookup ([] : List (κ × ν)) key = none := rfl

@[simp] theorem alookup_cons {κ ν : Type} [DecidableEq κ] (k : κ) (v : ν)
    (rest : List (κ × ν)) (key : κ) :
    alookup ((k, v) :: rest) key = if k = key then some v else alookup rest key := rfl

@[simp] theorem ainsert_nil {κ ν : Type} [DecidableEq κ] (key : κ) (value : ν) :
    ainsert ([] : List (κ × ν)) key value = [(key, value)] := rfl

@[simp] theorem ainsert_cons {κ ν : Type} [DecidableEq κ] (k : κ) (v : ν)
    (rest : List (κ × ν)) (key : κ) (value : ν) :
    ainsert ((k, v) :: rest) key value =
      if k = key then (key, value) :: rest else (k, v) :: ainsert rest key value := rfl

theorem alookup_ainsert_same {κ ν : Type} [DecidableEq κ]
    (l : List (κ × ν)) (key : κ) (value : ν) :
    alookup (ainsert l key value) key = some value := by
  induction l with
  | nil => simp
  | cons p rest ih =>
    obtain ⟨k, v⟩ := p
    by_cases h : k = key <;> simp [h, ih]

theorem alookup_ainsert_other {κ ν : Type} [DecidableEq κ]
    (l : List (κ × ν)) (key key' : κ) (value : ν) (h : key ≠ key') :
    alookup (ainsert l key value) key' = alookup l key' := by
  induction l with
  | nil => simp [h]
  | cons p rest ih =>
    obtain ⟨k, v⟩ := p
    by_cases hk : k = key
    · subst hk; simp [h]
    · by_cases hk' : k = key'
      · subst hk'; simp [Ne.symm h, hk]
      · simp [hk, hk', ih]

set_option maxHeartbeats 1000000 in
/-- C1.  The claim: for every module with `namespace N` at scope `s`, the
identifier-collector pass followed by the struct-collector pass succeeds
and leaves `s.N.Args`, `s.N.ImplicitArgs` and `s.N.Return` defined as
empty `Struct` definitions.  The code violates it: the identifier
collector keys the namespace placeholders at `s.N.N` (see `claim_C2`) and
never registers an `ImplicitArgs` placeholder, so the struct collector's
`add_name_definition(s.N.Args, …, require_registered = true)` fails with a
`Preprocess` error on the very first synthesized struct. -/
theorem claim_C1_namespace_struct_synthesis :
    Res.bind (IdentifierCollectorPass.run 10 nsProgram) (StructCollectorPass.run 10)
      = .err (.preprocess "Identifier testNArgs not found") := by
  simp [String.join]

set_option maxHeartbeats 1000000 in
/-- C2.  The claim: `IdVisitor::visit_namespace` registers the Unresolved
`Namespace` placeholder at `s ⊕ N` (enclosing scope plus the namespace
name).  The code registers it at `s ⊕ N ⊕ N`: `enter_namespace` has
already pushed `s.N` when `visit_namespace` appends `ns.name` again via
`current_identifier`.  After the pass on module `test`, the run succeeds,
`test.N.N` holds the placeholder (in the scope tree and in the flat map),
and `test.N` holds no definition at all. -/
theorem claim_C2_namespace_placeholder_key :
    Res.bind (IdentifierCollectorPass.run 10 nsProgram) (fun prg' => .ok
      (prg'.identifiers.get_by_full_name ["test", "N", "N"],
       prg'.identifiers.get_by_full_name ["test", "N"],
       alookup prg'.identifiers.identifiers ["test", "N"],
       alookup prg'.identifiers.identifiers ["test", "N", "N"]))
    = .ok (some (.unresolved .namespaceDef), none, none,
           some (.unresolved .namespaceDef)) := by
  simp [String.join]

/-- C3.  The claim: two `%builtins` directives make the directives pass
fail with a `Preprocess` error at the second one.  The code accepts them:
(a) `Instruction::visit` never visits `Directive` nodes, so the pass's
`visit_builtins` is never invoked and the run succeeds without even
collecting the builtins; and (b) even when `visit_builtins` is invoked
directly, `builtins_set` is never set to `true`, so a second call
overwrites the first instead of failing. -/
theorem claim_C3_two_builtins_accepted :
    DirectivesCollectorPass.run twoBuiltinsProgram = .ok twoBuiltinsProgram ∧
    directivesVisitBuiltins {} [.pedersen] ⟨0, 10⟩
      = .ok { builtins := [.pedersen], builtins_set := false } ∧
    directivesVisitBuiltins { builtins := [.pedersen], builtins_set := false }
        [.pedersen] ⟨11, 21⟩
      = .ok { builtins := [.pedersen], builtins_set := false } := by
  refine ⟨?_, ?_, ?_⟩ <;> simp


theorem foldl_const {σ α : Type} (l : List α) (s : σ) :
    l.foldl (fun acc _ => acc) s = s := by
  induction l generalizing s with
  | nil => rfl
  | cons a rest ih => simpa using ih s

theorem foldl_append_singleton {α β : Type} (f : α → β) (l : List α) (s : List β) :
    l.foldl (fun acc a => acc ++ [f a]) s = s ++ l.map f := by
  induction l generalizing s with
  | nil => simp
  | cons a rest ih => simp [ih, List.append_assoc]

/-- Traversal under a pure-import visitor, all five node kinds at once,
by strong induction on size: the tree is returned unchanged and the state
is the fold of `g` over the import directives in traversal order. -/
theorem pureImport_all {σ : Type} {v : Visitor σ} {g : σ → ImportDirective → σ}
    (H : PureImportHyps σ v g) : ∀ n : Nat,
    (∀ i : Instruction, sizeOf i < n → ∀ s,
      visitInstruction v s i = .ok ((instructionImports i).foldl g s, i)) ∧
    (∀ l : List Instruction, sizeOf l < n → ∀ s,
      visitInstructionList v s l = .ok ((instructionListImports l).foldl g s, l)) ∧
    (∀ x : IfStatement, sizeOf x < n → ∀ s,
      visitIfStatement v s x = .ok ((instructionImports (.If x)).foldl g s, x)) ∧
    (∀ f : FunctionDef, sizeOf f < n → ∀ s,
      visitFunctionDef v s f = .ok ((instructionImports (.Function f)).foldl g s, f)) ∧
    (∀ m : Namespace, sizeOf m < n → ∀ s,
      visitNamespace v s m = .ok ((instructionImports (.Namespace m)).foldl g s, m)) ∧
    (∀ w : WithStatement, sizeOf w < n → ∀ s,
      visitWithStatement v s w = .ok ((instructionImports (.WithStatement w)).foldl g s, w)) := by
  intro n
  induction n using Nat.strong_induction_on with
  | _ n IH =>
    refine ⟨?_, ?_, ?_, ?_, ?_, ?_⟩
    · intro i hi s
      cases i with
      | Const c =>
        simp only [visitInstruction, Visitor.visitConstantDef, H.hconst, H.hexpr,
          instructionImports, Res.bind_ok, List.foldl_nil]
      | Member t loc => simp [visitInstruction]
      | Let b rv loc =>
        cases b <;> cases rv <;>
          simp [visitInstruction, Visitor.visit_reference, H.hunpack, H.hretval, H.helem]
      | Local t e loc =>
        cases ht : t.ty <;> cases e <;>
          simp [visitInstruction, Visitor.visitTypedIdentifier, H.hlocal, H.htyped,
            H.htype, H.hexpr, ht]
      | Tempvar t e loc =>
        cases ht : t.ty <;> cases e <;>
          simp [visitInstruction, Visitor.visitTypedIdentifier, H.htemp, H.htyped,
            H.htype, H.hexpr, ht]
      | Assert lhs rhs loc => simp [visitInstruction]
      | StaticAssert lhs rhs loc => simp [visitInstruction]
      | Return vals loc => simp [visitInstruction]
      | ReturnFunctionCall fc loc => simp [visitInstruction]
      | If x =>
        have hx : sizeOf x < sizeOf (Instruction.If x) := by simp; try omega
        have ih := (IH _ hi).2.2.1 x hx s
        simp only [visitInstruction, ih, Res.bind_ok]
      | Label i loc => simp [visitInstruction, H.hlabel]
      | Function f =>
        have hf : sizeOf f < sizeOf (Instruction.Function f) := by simp; try omega
        have ih := (IH _ hi).2.2.2.1 f hf s
        simp only [visitInstruction, H.henterf, Res.bind_ok, ih, H.hexitf]
      | FunctionCall fc => simp [visitInstruction]
      | Struct sd => simp [visitInstruction, H.hstruct]
      | Namespace m =>
        have hm : sizeOf m < sizeOf (Instruction.Namespace m) := by simp; try omega
        have ih := (IH _ hi).2.2.2.2.1 m hm s
        simp only [visitInstruction, H.henterns, Res.bind_ok, ih, H.hexitns]
      | WithAttrStatement w => simp [visitInstruction]
      | WithStatement w =>
        have hw : sizeOf w < sizeOf (Instruction.WithStatement w) := by simp; try omega
        have ih := (IH _ hi).2.2.2.2.2 w hw s
        simp only [visitInstruction, ih, Res.bind_ok]
      | Hint h loc => simp [visitInstruction]
      | Directive d => simp [visitInstruction]
      | Import i => simp [visitInstruction, H.himp]
      | AllocLocals loc => simp [visitInstruction]
      | Assign lhs rhs loc => simp [visitInstruction]
      | Jmp j loc => simp [visitInstruction]
      | CallInstruction c => simp [visitInstruction]
      | Ret loc => simp [visitInstruction]
      | ApAddAssign e loc => simp [visitInstruction]
      | ApAdd i loc => simp [visitInstruction]
      | DataWord e loc => simp [visitInstruction]
    · intro l hl s
      cases l with
      | nil => simp [visitInstructionList]
      | cons i rest =>
        have hi : sizeOf i < sizeOf (i :: rest) := by simp; try omega
        have hrest : sizeOf rest < sizeOf (i :: rest) := by simp; try omega
        have ih1 := (IH _ hl).1 i hi s
        have ih2 := (IH _ hl).2.1 rest hrest ((instructionImports i).foldl g s)
        simp only [visitInstructionList, ih1, Res.bind_ok, ih2,
          instructionListImports, List.foldl_append]
    · intro x hx s
      cases x with
      | mk cond instrs els label_neq label_end loc =>
        have hinstrs : sizeOf instrs
            < sizeOf (IfStatement.mk cond instrs els label_neq label_end loc) := by
          simp; try omega
        have ih1 := (IH _ hx).2.1 instrs hinstrs s
        cases els with
        | none =>
          simp only [visitIfStatement, H.hif, Res.bind_ok, IfStatement.label_neq,
            IfStatement.label_end, ih1, instructionImports, List.append_nil]
        | some e =>
          have he : sizeOf e
              < sizeOf (IfStatement.mk cond instrs (some e) label_neq label_end loc) := by
            simp; try omega
          have ih2 := (IH _ hx).2.1 e he ((instructionListImports instrs).foldl g s)
          simp only [visitIfStatement, H.hif, Res.bind_ok, IfStatement.label_neq,
            IfStatement.label_end, ih1, ih2, instructionImports, List.foldl_append]
    · intro f hf s
      cases f with
      | mk decorators name implicit_args input_args return_values instrs loc =>
        have hinstrs : sizeOf instrs < sizeOf (FunctionDef.mk decorators name
            implicit_args input_args return_values instrs loc) := by simp; try omega
        have ih := (IH _ hf).2.1 instrs hinstrs s
        simp only [visitFunctionDef, H.hfun, Res.bind_ok, ih, instructionImports]
    · intro m hm s
      cases m with
      | mk decorators name instrs loc =>
        have hinstrs : sizeOf instrs < sizeOf (Namespace.mk decorators name instrs loc) := by
          simp; try omega
        have ih := (IH _ hm).2.1 instrs hinstrs s
        simp only [visitNamespace, H.hns, Res.bind_ok, ih, instructionImports]
    · intro w hw s
      cases w with
      | mk ids instrs loc =>
        have hinstrs : sizeOf instrs < sizeOf (WithStatement.mk ids instrs loc) := by
          simp; try omega
        have ih := (IH _ hw).2.1 instrs hinstrs s
        simp only [visitWithStatement, H.hwith, Res.bind_ok, ih, instructionImports]

/-- Traversal of an instruction list under a pure-import visitor. -/
theorem pureImport_instructionList {σ : Type} {v : Visitor σ} {g : σ → ImportDirective → σ}
    (H : PureImportHyps σ v g) (s : σ) (l : List Instruction) :
    visitInstructionList v s l = .ok ((instructionListImports l).foldl g s, l) :=
  (pureImport_all H (sizeOf l + 1)).2.1 l (Nat.lt_succ_self _) s

/-- `LangVisitor` is a pure-import visitor with no state effect: its only
overridden hook, `visit_lang`, is never invoked by `Instruction::visit`. -/
theorem langVisitor_pure : PureImportHyps (Option String) langVisitor (fun s _ => s) := by
  constructor <;> intros <;> rfl

/-- `DirectDependenciesCollector` is a pure-import visitor that appends
the name of each imported module. -/
theorem depsVisitor_pure :
    PureImportHyps (List String) depsVisitor (fun s imp => s ++ [imp.name]) := by
  constructor <;> intros <;> rfl

/-- `CairoFile::visit` under a pure-import visitor. -/
theorem pureImport_file {σ : Type} {v : Visitor σ} {g : σ → ImportDirective → σ}
    (H : PureImportHyps σ v g) (s : σ) (f : CairoFile) :
    f.visit v s = .ok ((instructionListImports f.instructions).foldl g s, f) := by
  cases f with
  | mk instrs =>
    simp only [CairoFile.visit, pureImport_instructionList H s instrs, Res.bind_ok]

/-- `DirectDependenciesCollector::deps` returns exactly the file's import
module names, in order, and never fails. -/
theorem deps_eq_fileDeps (f : CairoFile) :
    DirectDependenciesCollector.deps f = .ok (fileDeps f) := by
  simp only [DirectDependenciesCollector.deps, pureImport_file depsVisitor_pure,
    Res.bind_ok, fileDeps, foldl_append_singleton, List.nil_append]


/-- C10.  The claim: a module source with two `%lang` directives makes
`%lang` extraction fail, and with at most one directive it returns that
directive's identifier (or `None`).  The code does neither:
`Instruction::visit` has a no-op `Directive` arm, so `LangVisitor`'s
`visit_lang` hook is never invoked and `lang()` returns `Ok(None)` for
EVERY file — it neither rejects two directives (`twoLangFile`) nor
returns the identifier of a single one (`oneLangFile`). -/
theorem claim_C10_lang_extraction_dead :
    (∀ m : CairoModule, m.lang = .ok none) ∧
    LangVisitor.lang twoLangFile = .ok none ∧
    LangVisitor.lang oneLangFile = .ok none := by
  have hgen : ∀ f : CairoFile, LangVisitor.lang f = .ok none := by
    intro f
    have h := pureImport_file langVisitor_pure none f
    simp only [LangVisitor.lang, h, Res.bind_ok, foldl_const]
  exact ⟨fun m => hgen m.cairo_file, hgen twoLangFile, hgen oneLangFile⟩

/-! #### C4: divergence of `Identifiers::get` on a self-growing alias -/

/-- `List.replicate n "a"`: the query names arising while chasing the
alias `a ↦ a.a`. -/
theorem aliasCycle_root_get (n : Nat) (h : 1 ≤ n) :
    aliasCycleTable.root.get (List.replicate n "a")
      = .ok ⟨.alias ["a", "a"], ["a"],
             if n = 1 then none else some (List.replicate (n - 1) "a")⟩ := by
  match n, h with
  | 1, _ => simp [aliasCycleTable]
  | (k + 2), _ => simp [aliasCycleTable, List.replicate_succ]

theorem aliasCycle_getLoop (fuel : Nat) :
    ∀ (n : Nat) (visited : List ScopedName), 1 ≤ n →
    (∀ m, n + 1 ≤ m → List.replicate m "a" ∉ visited) →
    Identifiers.getLoop aliasCycleTable.root fuel visited
      ⟨.alias ["a", "a"], ["a"],
        if n = 1 then none else some (List.replicate (n - 1) "a")⟩
      = .outOfFuel := by
  induction fuel with
  | zero =>
    intro n visited hn hvis
    simp [Identifiers.getLoop, IdentifierDefinitionType.as_alias]
  | succ fuel ih =>
    intro n visited hn hvis
    have hcur : (match (if n = 1 then none
          else some (List.replicate (n - 1) "a") : Option ScopedName) with
        | some rem => ScopedName.extended ["a", "a"] rem
        | none => (["a", "a"] : ScopedName)) = List.replicate (n + 1) "a" := by
      rcases Nat.lt_or_ge n 2 with h2 | h2
      · interval_cases n
        simp [List.replicate_succ]
      · have hne : n ≠ 1 := by omega
        simp only [hne, if_false, ScopedName.extended]
        have : n + 1 = 2 + (n - 1) := by omega
        rw [this, List.replicate_add]
        rfl
    have hnotmem : List.replicate (n + 1) "a" ∉ visited := hvis (n + 1) (le_refl _)
    have hcontains : visited.contains (List.replicate (n + 1) "a") = false := by
      simpa using hnotmem
    rw [Identifiers.getLoop]
    simp only [IdentifierDefinitionType.as_alias, hcur, hcontains, Bool.false_eq_true,
      if_false]
    rw [aliasCycle_root_get (n + 1) (by omega)]
    have hstep := ih (n + 1) (List.replicate (n + 1) "a" :: visited) (by omega) (by
      intro m hm
      simp only [List.mem_cons, not_or]
      constructor
      · intro heq
        have := congrArg List.length heq
        simp at this
        omega
      · exact hvis m (by omega))
    simpa using hstep

/-- C4.  The claim: alias resolution in `Identifiers::get` terminates for
every identifier-table state and queried name (cycles producing the
cyclic-alias error).  The code violates it: on the table holding the
single binding `a ↦ Alias(a.a)` — reachable from the empty table by one
`add_identifier` call — the query `a` rewrites to `a.a`, `a.a.a`, … (each
step appends the unconsumed remainder to the alias target), every
rewritten name is new, so the visited-set check never fires and the Rust
loop runs forever; in the fuel-bounded model the loop exhausts every
fuel. -/
theorem claim_C4_alias_resolution_diverges :
    Identifiers.add_identifier {} ["a"] (.alias ["a", "a"]) = .ok aliasCycleTable ∧
    ∀ fuel : Nat, aliasCycleTable.get fuel ["a"] = .outOfFuel := by
  constructor
  · simp [aliasCycleTable]
  · intro fuel
    have h1 := aliasCycle_root_get 1 (le_refl _)
    simp only [List.replicate_one] at h1
    rw [Identifiers.get, h1]
    have h := aliasCycle_getLoop fuel 1 [["a"]] (le_refl _) (by
      intro m hm
      simp only [List.mem_singleton]
      intro heq
      have := congrArg List.length heq
      simp at this
      omega)
    simpa using h

/-! #### C5: the collision rule of `IdVisitor::add_identifier` -/

/-- A non-empty name can always be written into a scope tree. -/
theorem scope_add_identifier_ok (n : List String) (hn : n ≠ []) :
    ∀ (sc : Scope) (ty : IdentifierDefinitionType),
      ∃ r, sc.add_identifier n ty = .ok r := by
  induction n with
  | nil => exact absurd rfl hn
  | cons x rest ih =>
    intro sc ty
    cases rest with
    | nil => exact ⟨_, rfl⟩
    | cons y ys =>
      obtain ⟨⟨sub', dest⟩, hr⟩ := ih (by simp) (match alookup sc.subscopes x with
        | some sub => sub
        | none => Scope.new (sc.full_name.appended x)) ty
      exact ⟨(.mk sc.full_name (ainsert sc.subscopes x sub') sc.identifiers, dest),
        by rw [Scope.add_identifier, hr]⟩

/-- The boolean core of the collision rule: among unresolved definitions,
"reference or unresolved reference" collapses to "unresolved reference". -/
theorem unresolved_ref_simp (d : IdentifierDefinitionType) :
    (d.is_unresolved && (d.is_reference || d.is_unresolved_reference))
      = d.is_unresolved_reference := by
  cases d <;> simp [IdentifierDefinitionType.is_unresolved,
    IdentifierDefinitionType.is_reference, IdentifierDefinitionType.is_unresolved_reference]

/-- C5.  During identifier collection, re-adding an already-present name
succeeds exactly when both the existing and the new definition are
unresolved references; every other collision is `Redefinition(name, loc)`
with the location of the new occurrence.  In particular the module
`foo:\n local foo = [ap]` fails with `Redefinition(test.foo)` at the
second `foo`. -/
theorem claim_C5_redefinition_rule :
    (∀ (st : IdSt) (name : ScopedName) (ty : IdentifierDefinitionType) (loc : Loc)
        (existing : IdentifierDefinitionType),
      st.identifiers.get_by_full_name name = some existing →
      ((∃ st', st.add_identifier name ty loc = .ok st') ↔
        (existing.is_unresolved_reference = true ∧ ty.is_unresolved_reference = true)) ∧
      ((existing.is_unresolved_reference = true ∧ ty.is_unresolved_reference = true) ∨
        st.add_identifier name ty loc = .err (.redefinition name loc))) ∧
    IdentifierCollectorPass.run 10 labelLocalProgram
      = .err (.redefinition ["test", "foo"] ⟨6, 9⟩) := by
  constructor
  · intro st name ty loc existing hexist
    have hname : name ≠ [] := by
      intro h
      rw [h] at hexist
      simp [Identifiers.get_by_full_name] at hexist
    obtain ⟨⟨root', dest⟩, hroot⟩ := scope_add_identifier_ok name hname st.identifiers.root ty
    have hstep : st.add_identifier name ty loc
        = (if !existing.is_unresolved || !ty.is_unresolved then
            (.err (.redefinition name loc) : Res IdSt)
          else if !(existing.is_reference || existing.is_unresolved_reference)
              || !(ty.is_reference || ty.is_unresolved_reference) then
            .err (.redefinition name loc)
          else
            Res.bind (st.identifiers.add_identifier name ty) fun ids =>
              .ok { st with identifiers := ids }) := by
      rw [IdSt.add_identifier, hexist]
    have hmain : (existing.is_unresolved_reference = true ∧ ty.is_unresolved_reference = true
          ∧ ∃ st', st.add_identifier name ty loc = .ok st')
        ∨ (¬(existing.is_unresolved_reference = true ∧ ty.is_unresolved_reference = true)
          ∧ st.add_identifier name ty loc = .err (.redefinition name loc)) := by
      rw [hstep]
      by_cases hc1 : (!existing.is_unresolved || !ty.is_unresolved) = true
      · refine Or.inr ⟨?_, if_pos hc1⟩
        rintro ⟨h1, h2⟩
        have e1 : existing.is_unresolved = true := by
          have h := unresolved_ref_simp existing
          rw [h1, Bool.and_eq_true] at h
          exact h.1
        have e2 : ty.is_unresolved = true := by
          have h := unresolved_ref_simp ty
          rw [h2, Bool.and_eq_true] at h
          exact h.1
        rw [e1, e2] at hc1
        exact absurd hc1 (by decide)
      · have hc1f : (!existing.is_unresolved || !ty.is_unresolved) = false := by
          cases h : (!existing.is_unresolved || !ty.is_unresolved) with
          | false => rfl
          | true => exact absurd h hc1
        have hA : existing.is_unresolved = true := by
          cases h : existing.is_unresolved with
          | true => rfl
          | false =>
            rw [h] at hc1f
            simp at hc1f
        have hB : ty.is_unresolved = true := by
          cases h : ty.is_unresolved with
          | true => rfl
          | false =>
            rw [h] at hc1f
            simp at hc1f
        have hC : (existing.is_reference || existing.is_unresolved_reference)
            = existing.is_unresolved_reference := by
          have h := unresolved_ref_simp existing
          rw [hA, Bool.true_and] at h
          exact h
        have hD : (ty.is_reference || ty.is_unresolved_reference)
            = ty.is_unresolved_reference := by
          have h := unresolved_ref_simp ty
          rw [hB, Bool.true_and] at h
          exact h
        by_cases hur : existing.is_unresolved_reference = true ∧ ty.is_unresolved_reference = true
        · have hc2 : (!(existing.is_reference || existing.is_unresolved_reference)
              || !(ty.is_reference || ty.is_unresolved_reference)) = false := by
            rw [hC, hD, hur.1, hur.2]
            rfl
          refine Or.inl ⟨hur.1, hur.2, ?_⟩
          rw [if_neg (by rw [hc1f]; exact Bool.false_ne_true),
            if_neg (by rw [hc2]; exact Bool.false_ne_true),
            Identifiers.add_identifier, hroot]
          exact ⟨_, rfl⟩
        · have hc2 : (!(existing.is_reference || existing.is_unresolved_reference)
              || !(ty.is_reference || ty.is_unresolved_reference)) = true := by
            rw [hC, hD]
            cases h1 : existing.is_unresolved_reference with
            | false => rfl
            | true =>
              cases h2 : ty.is_unresolved_reference with
              | false => rfl
              | true => exact absurd ⟨h1, h2⟩ hur
          refine Or.inr ⟨hur, ?_⟩
          rw [if_neg (by rw [hc1f]; exact Bool.false_ne_true)]
          exact if_pos hc2
    rcases hmain with ⟨h1, h2, hok⟩ | ⟨hne, herr⟩
    · exact ⟨⟨fun _ => ⟨h1, h2⟩, fun _ => hok⟩, Or.inl ⟨h1, h2⟩⟩
    · refine ⟨⟨?_, fun h => absurd h hne⟩, Or.inr herr⟩
      rintro ⟨st', hst'⟩
      rw [herr] at hst'
      exact Res.noConfusion hst'
  · have hfoo : ".".intercalate ["foo"] = "foo" := by decide
    simp [String.join, hfoo]

/-- Witness for C5 at a concrete collision: the table already maps `a` to an
alias, and re-adding `a` as a `Const` is rejected as a redefinition. -/
theorem claim_C5_redefinition_rule_witness :
    ((∃ st', IdSt.add_identifier ⟨aliasCycleTable, ⟨[], none, none⟩⟩ ["a"] .constDef ⟨0, 0⟩
        = .ok st') ↔
      ((IdentifierDefinitionType.alias ["a", "a"]).is_unresolved_reference = true ∧
        IdentifierDefinitionType.constDef.is_unresolved_reference = true)) ∧
    (((IdentifierDefinitionType.alias ["a", "a"]).is_unresolved_reference = true ∧
        IdentifierDefinitionType.constDef.is_unresolved_reference = true) ∨
      IdSt.add_identifier ⟨aliasCycleTable, ⟨[], none, none⟩⟩ ["a"] .constDef ⟨0, 0⟩
        = .err (.redefinition ["a"] ⟨0, 0⟩)) :=
  claim_C5_redefinition_rule.1 ⟨aliasCycleTable, ⟨[], none, none⟩⟩ ["a"] .constDef ⟨0, 0⟩
    (.alias ["a", "a"]) (by simp)

/-! #### C7: `resolve_type` is idempotent -/

/-- A fully resolved type is a fixed point of `resolve_type` (joint statement
for types and element lists, by strong induction on size). -/
theorem resolve_of_fully_resolved (ids : Identifiers) (fuel : Nat) :
    ∀ n : Nat,
      (∀ t : CairoType, sizeOf t < n → t.fully_resolved = true →
        ids.resolve_type fuel t = .ok t) ∧
      (∀ l : List CairoType, sizeOf l < n → CairoType.fully_resolved_list l = true →
        ids.resolve_type_list fuel l = .ok l) := by
  intro n
  induction n using Nat.strong_induction_on with
  | _ n ih =>
    constructor
    · intro t ht hfr
      cases t with
      | felt => simp
      | id ts =>
        simp only [CairoType.fully_resolved] at hfr
        rw [Identifiers.resolve_type]
        exact if_pos hfr
      | tuple elems =>
        simp only [CairoType.fully_resolved] at hfr
        have hl := (ih (sizeOf (CairoType.tuple elems)) ht).2 elems
          (by simp; try omega) hfr
        rw [Identifiers.resolve_type, hl]
      | pointer p =>
        cases p with
        | single q =>
          simp only [CairoType.fully_resolved] at hfr
          have hq := (ih (sizeOf (CairoType.pointer (.single q))) ht).1 q
            (by simp; try omega) hfr
          rw [Identifiers.resolve_type, hq]
        | double q =>
          simp only [CairoType.fully_resolved] at hfr
          have hq := (ih (sizeOf (CairoType.pointer (.double q))) ht).1 q
            (by simp; try omega) hfr
          rw [Identifiers.resolve_type, hq]
    · intro l hl hfr
      cases l with
      | nil => simp
      | cons t ts =>
        simp only [CairoType.fully_resolved_list, Bool.and_eq_true] at hfr
        have h1 := (ih (sizeOf (t :: ts)) hl).1 t (by simp; try omega) hfr.1
        have h2 := (ih (sizeOf (t :: ts)) hl).2 ts (by simp; try omega) hfr.2
        rw [Identifiers.resolve_type_list, h1, h2]

/-- A successful `resolve_type` output is fully resolved (joint statement for
types and element lists, by strong induction on size). -/
theorem resolve_ok_fully_resolved (ids : Identifiers) (fuel : Nat) :
    ∀ n : Nat,
      (∀ t u : CairoType, sizeOf t < n → ids.resolve_type fuel t = .ok u →
        u.fully_resolved = true) ∧
      (∀ l l' : List CairoType, sizeOf l < n → ids.resolve_type_list fuel l = .ok l' →
        CairoType.fully_resolved_list l' = true) := by
  intro n
  induction n using Nat.strong_induction_on with
  | _ n ih =>
    constructor
    · intro t u ht hok
      cases t with
      | felt =>
        rw [Identifiers.resolve_type] at hok
        injection hok with h
        subst h
        simp
      | id ts =>
        rw [Identifiers.resolve_type] at hok
        by_cases hf : ts.is_fully_resolved = true
        · rw [if_pos hf] at hok
          injection hok with h
          subst h
          simpa using hf
        · rw [if_neg hf] at hok
          split at hok
          · injection hok with h
            subst h
            simp
          · exact Res.noConfusion hok
          · exact Res.noConfusion hok
          · exact Res.noConfusion hok
      | tuple elems =>
        rw [Identifiers.resolve_type] at hok
        split at hok
        next elems2 heq =>
          injection hok with h
          subst h
          have := (ih (sizeOf (CairoType.tuple elems)) ht).2 elems elems2
            (by simp; try omega) heq
          simpa using this
        next e heq => exact Res.noConfusion hok
        next heq => exact Res.noConfusion hok
        next heq => exact Res.noConfusion hok
      | pointer p =>
        cases p with
        | single q =>
          rw [Identifiers.resolve_type] at hok
          split at hok
          next q2 heq =>
            injection hok with h
            subst h
            have := (ih (sizeOf (CairoType.pointer (.single q))) ht).1 q q2
              (by simp; try omega) heq
            simpa using this
          next e heq => exact Res.noConfusion hok
          next heq => exact Res.noConfusion hok
          next heq => exact Res.noConfusion hok
        | double q =>
          rw [Identifiers.resolve_type] at hok
          split at hok
          next q2 heq =>
            injection hok with h
            subst h
            have := (ih (sizeOf (CairoType.pointer (.double q))) ht).1 q q2
              (by simp; try omega) heq
            simpa using this
          next e heq => exact Res.noConfusion hok
          next heq => exact Res.noConfusion hok
          next heq => exact Res.noConfusion hok
    · intro l l2 hl hok
      cases l with
      | nil =>
        rw [Identifiers.resolve_type_list] at hok
        injection hok with h
        subst h
        simp
      | cons t ts =>
        rw [Identifiers.resolve_type_list] at hok
        split at hok
        next t2 heq1 =>
          split at hok
          next ts2 heq2 =>
            injection hok with h
            subst h
            have h1 := (ih (sizeOf (t :: ts)) hl).1 t t2 (by simp; try omega) heq1
            have h2 := (ih (sizeOf (t :: ts)) hl).2 ts ts2 (by simp; try omega) heq2
            simp [h1, h2]
          next e heq2 => exact Res.noConfusion hok
          next heq2 => exact Res.noConfusion hok
          next heq2 => exact Res.noConfusion hok
        next e heq1 => exact Res.noConfusion hok
        next heq1 => exact Res.noConfusion hok
        next heq1 => exact Res.noConfusion hok

/-- C7.  `resolve_type` is idempotent: whenever `resolve_type T` succeeds with
result `U`, applying `resolve_type` to `U` succeeds and returns `U` unchanged,
and every named struct reference inside `U` has `is_fully_resolved = true`. -/
theorem claim_C7_resolve_type_idempotent :
    ∀ (ids : Identifiers) (fuel : Nat) (T U : CairoType),
      ids.resolve_type fuel T = .ok U →
      ids.resolve_type fuel U = .ok U ∧ U.fully_resolved = true := by
  intro ids fuel T U h
  have hfr := (resolve_ok_fully_resolved ids fuel (sizeOf T + 1)).1 T U
    (Nat.lt_succ_self _) h
  exact ⟨(resolve_of_fully_resolved ids fuel (sizeOf U + 1)).1 U
    (Nat.lt_succ_self _) hfr, hfr⟩

/-- Witness for C7: resolving `felt` over the concrete alias table succeeds and
the theorem applies to it. -/
theorem claim_C7_resolve_type_idempotent_witness :
    aliasCycleTable.resolve_type 1 .felt = .ok .felt
      ∧ CairoType.fully_resolved .felt = true :=
  claim_C7_resolve_type_idempotent aliasCycleTable 1 .felt .felt (by simp)

/-! #### C9: the `builtins` field of the program is never written -/

/-- `ModuleCollectorPass::run` only appends to `modules`. -/
theorem moduleCollector_builtins_frame (reader : String → Option CairoFile)
    (fuel : Nat) (prg prg' : PreprocessedProgram)
    (h : ModuleCollectorPass.run reader fuel prg = .ok prg') :
    prg'.builtins = prg.builtins := by
  rw [ModuleCollectorPass.run] at h
  cases hx : moduleCollectorCodes reader fuel prg.main_scope [] [] prg.codes with
  | ok r =>
    obtain ⟨vis, mods⟩ := r
    simp only [hx, Res.bind_ok] at h
    injection h with h2
    subst h2
    rfl
  | err e => simp only [hx, Res.bind_err] at h; exact Res.noConfusion h
  | panicked => simp only [hx, Res.bind_panicked] at h; exact Res.noConfusion h
  | outOfFuel => simp only [hx, Res.bind_outOfFuel] at h; exact Res.noConfusion h

/-- `UniqueLabelPass::run` only rewrites `modules`. -/
theorem uniqueLabel_builtins_frame (prg prg' : PreprocessedProgram)
    (h : UniqueLabelPass.run prg = .ok prg') :
    prg'.builtins = prg.builtins := by
  rw [UniqueLabelPass.run] at h
  cases hx : uniqueLabelRunAux 0 prg.modules with
  | ok r =>
    obtain ⟨ctn, mods⟩ := r
    simp only [hx, Res.bind_ok] at h
    injection h with h2
    subst h2
    rfl
  | err e => simp only [hx, Res.bind_err] at h; exact Res.noConfusion h
  | panicked => simp only [hx, Res.bind_panicked] at h; exact Res.noConfusion h
  | outOfFuel => simp only [hx, Res.bind_outOfFuel] at h; exact Res.noConfusion h

/-- `IdentifierCollectorPass::run` only writes `identifiers` and `modules`. -/
theorem identifierCollector_builtins_frame (fuel : Nat)
    (prg prg' : PreprocessedProgram)
    (h : IdentifierCollectorPass.run fuel prg = .ok prg') :
    prg'.builtins = prg.builtins := by
  rw [IdentifierCollectorPass.run] at h
  cases hx : identifierCollectorRunAux fuel prg.identifiers {} prg.modules with
  | ok r =>
    obtain ⟨ids, tr, mods⟩ := r
    simp only [hx, Res.bind_ok] at h
    injection h with h2
    subst h2
    rfl
  | err e => simp only [hx, Res.bind_err] at h; exact Res.noConfusion h
  | panicked => simp only [hx, Res.bind_panicked] at h; exact Res.noConfusion h
  | outOfFuel => simp only [hx, Res.bind_outOfFuel] at h; exact Res.noConfusion h

/-- `DirectivesCollectorPass::run` keeps its builtins in the pass state and
only rewrites `modules`. -/
theorem directives_builtins_frame (prg prg' : PreprocessedProgram)
    (h : DirectivesCollectorPass.run prg = .ok prg') :
    prg'.builtins = prg.builtins := by
  rw [DirectivesCollectorPass.run] at h
  cases hx : directivesRunAux {} prg.modules with
  | ok r =>
    obtain ⟨st, mods⟩ := r
    simp only [hx, Res.bind_ok] at h
    injection h with h2
    subst h2
    rfl
  | err e => simp only [hx, Res.bind_err] at h; exact Res.noConfusion h
  | panicked => simp only [hx, Res.bind_panicked] at h; exact Res.noConfusion h
  | outOfFuel => simp only [hx, Res.bind_outOfFuel] at h; exact Res.noConfusion h

/-- `StructCollectorPass::run` only writes `identifiers` and `modules`. -/
theorem structCollector_builtins_frame (fuel : Nat)
    (prg prg' : PreprocessedProgram)
    (h : StructCollectorPass.run fuel prg = .ok prg') :
    prg'.builtins = prg.builtins := by
  rw [StructCollectorPass.run] at h
  cases hx : structCollectorRunAux fuel prg.identifiers prg.modules with
  | ok r =>
    obtain ⟨ids, mods⟩ := r
    simp only [hx, Res.bind_ok] at h
    injection h with h2
    subst h2
    rfl
  | err e => simp only [hx, Res.bind_err] at h; exact Res.noConfusion h
  | panicked => simp only [hx, Res.bind_panicked] at h; exact Res.noConfusion h
  | outOfFuel => simp only [hx, Res.bind_outOfFuel] at h; exact Res.noConfusion h

/-- C9.  A freshly constructed `PreprocessedProgram` has `builtins = none`,
and a successful run of the default pass pipeline leaves the `builtins`
field unchanged: the directives collector stores what it collects only in
its own pass state. -/
theorem claim_C9_builtins_frame :
    (∀ (main_scope : ScopedName) (codes : List CairoContent),
      (PreprocessedProgram.new main_scope codes).builtins = none) ∧
    (∀ (reader : String → Option CairoFile) (fuel : Nat)
        (prg prg' : PreprocessedProgram),
      PassManager.run_on reader fuel prg = .ok prg' →
      prg'.builtins = prg.builtins) := by
  refine ⟨fun _ _ => rfl, ?_⟩
  intro reader fuel prg prg' h
  rw [PassManager.run_on] at h
  cases h1 : ModuleCollectorPass.run reader fuel prg with
  | ok prg1 =>
    simp only [h1, Res.bind_ok] at h
    cases h2 : UniqueLabelPass.run prg1 with
    | ok prg2 =>
      simp only [h2, Res.bind_ok] at h
      cases h3 : IdentifierCollectorPass.run fuel prg2 with
      | ok prg3 =>
        simp only [h3, Res.bind_ok] at h
        cases h4 : DirectivesCollectorPass.run prg3 with
        | ok prg4 =>
          simp only [h4, Res.bind_ok] at h
          exact (structCollector_builtins_frame fuel prg4 prg' h).trans
            ((directives_builtins_frame prg3 prg4 h4).trans
              ((identifierCollector_builtins_frame fuel prg2 prg3 h3).trans
                ((uniqueLabel_builtins_frame prg1 prg2 h2).trans
                  (moduleCollector_builtins_frame reader fuel prg prg1 h1))))
        | err e => simp only [h4, Res.bind_err] at h; exact Res.noConfusion h
        | panicked => simp only [h4, Res.bind_panicked] at h; exact Res.noConfusion h
        | outOfFuel => simp only [h4, Res.bind_outOfFuel] at h; exact Res.noConfusion h
      | err e => simp only [h3, Res.bind_err] at h; exact Res.noConfusion h
      | panicked => simp only [h3, Res.bind_panicked] at h; exact Res.noConfusion h
      | outOfFuel => simp only [h3, Res.bind_outOfFuel] at h; exact Res.noConfusion h
    | err e => simp only [h2, Res.bind_err] at h; exact Res.noConfusion h
    | panicked => simp only [h2, Res.bind_panicked] at h; exact Res.noConfusion h
    | outOfFuel => simp only [h2, Res.bind_outOfFuel] at h; exact Res.noConfusion h
  | err e => simp only [h1, Res.bind_err] at h; exact Res.noConfusion h
  | panicked => simp only [h1, Res.bind_panicked] at h; exact Res.noConfusion h
  | outOfFuel => simp only [h1, Res.bind_outOfFuel] at h; exact Res.noConfusion h

/-- Witness for C9: the pipeline on the empty program succeeds and the
theorem applies to it. -/
theorem claim_C9_builtins_frame_witness :
    (PreprocessedProgram.new ["__main__"] []).builtins = none ∧
    (PreprocessedProgram.new ["__main__"] []).builtins
      = (PreprocessedProgram.new ["__main__"] []).builtins :=
  ⟨claim_C9_builtins_frame.1 ["__main__"] [],
   claim_C9_builtins_frame.2 (fun _ => none) 1
     (PreprocessedProgram.new ["__main__"] [])
     (PreprocessedProgram.new ["__main__"] []) (by simp)⟩

/-! #### C8: the flat identifier map and the scope tree stay in sync -/

/-- A successful `alookup` is a membership. -/
theorem alookup_mem {κ ν : Type} [DecidableEq κ] :
    ∀ (l : List (κ × ν)) (k : κ) (v : ν), alookup l k = some v → (k, v) ∈ l := by
  intro l k v
  induction l with
  | nil => intro h; simp at h
  | cons p rest ih =>
    obtain ⟨k0, v0⟩ := p
    intro h
    rw [alookup_cons] at h
    by_cases hk : k0 = k
    · subst hk
      rw [if_pos rfl] at h
      injection h with h2
      subst h2
      exact List.mem_cons_self _ _
    · rw [if_neg hk] at h
      exact List.mem_cons_of_mem _ (ih h)

/-- Membership after an `ainsert` comes from the inserted pair or from the
original list. -/
theorem ainsert_mem {κ ν : Type} [DecidableEq κ] :
    ∀ (l : List (κ × ν)) (key : κ) (value : ν) (k : κ) (v : ν),
      (k, v) ∈ ainsert l key value → (k = key ∧ v = value) ∨ (k, v) ∈ l := by
  intro l key value k v
  induction l with
  | nil =>
    intro h
    rw [ainsert_nil] at h
    have h2 := List.mem_singleton.mp h
    injection h2 with h3 h4
    exact Or.inl ⟨h3, h4⟩
  | cons p rest ih =>
    obtain ⟨k0, v0⟩ := p
    intro h
    rw [ainsert_cons] at h
    by_cases hk : k0 = key
    · rw [if_pos hk] at h
      rcases List.mem_cons.mp h with h2 | h2
      · injection h2 with h3 h4
        exact Or.inl ⟨h3, h4⟩
      · exact Or.inr (List.mem_cons_of_mem _ h2)
    · rw [if_neg hk] at h
      rcases List.mem_cons.mp h with h2 | h2
      · exact Or.inr (h2 ▸ List.mem_cons_self _ _)
      · rcases ih h2 with h3 | h3
        · exact Or.inl h3
        · exact Or.inr (List.mem_cons_of_mem _ h3)

/-- Projection of an explicitly built scope node: its recorded name. -/
theorem scope_mk_full_name (f : ScopedName) (sb : List (String × Scope))
    (ids : List (String × IdentifierDefinitionType)) :
    (Scope.mk f sb ids).full_name = f := rfl

/-- Projection of an explicitly built scope node: its sub-scope map. -/
theorem scope_mk_subscopes (f : ScopedName) (sb : List (String × Scope))
    (ids : List (String × IdentifierDefinitionType)) :
    (Scope.mk f sb ids).subscopes = sb := rfl

/-- Projection of an explicitly built scope node: its identifier map. -/
theorem scope_mk_identifiers (f : ScopedName) (sb : List (String × Scope))
    (ids : List (String × IdentifierDefinitionType)) :
    (Scope.mk f sb ids).identifiers = ids := rfl

/-- `Scope::get` on a one-segment name answers from this scope's map. -/
theorem scope_get_single (s : Scope) (x : String) :
    s.get [x] = (match alookup s.identifiers x with
      | some ty => .ok ⟨ty, s.full_name.appended x, none⟩
      | none =>
        if (alookup s.subscopes x).isSome then
          .err (.notIdentifier (s.full_name.appended x))
        else .err (.missingIdentifier (s.full_name.appended x))) := by
  rw [Scope.get]
  rfl

/-- `Scope::get` on a multi-segment name descends when the head names a
sub-scope, and otherwise answers from this scope's map with a remainder. -/
theorem scope_get_cons (s : Scope) (x y : String) (ys : List String) :
    s.get (x :: y :: ys) = (match alookup s.subscopes x with
      | some sub => sub.get (y :: ys)
      | none =>
        match alookup s.identifiers x with
        | some ty => .ok ⟨ty, s.full_name.appended x, some (y :: ys)⟩
        | none =>
          if (alookup s.subscopes x).isSome then
            .err (.notIdentifier (s.full_name.appended x))
          else .err (.missingIdentifier (s.full_name.appended x))) := by
  rw [Scope.get]
  rfl

set_option maxHeartbeats 1000000 in
/-- The core of the C8 invariant: writing a definition into a well-formed
scope tree lands it at the concatenated destination, keeps the tree
well-formed, makes the new name resolve to the new definition with no
remainder, and preserves every earlier remainder-free resolution of any
other name. -/
theorem scope_add_get (ty : IdentifierDefinitionType) :
    ∀ (n : List String) (s : Scope) (pre : ScopedName) (s' : Scope) (dest : ScopedName),
      Scope.WF pre s → s.add_identifier n ty = .ok (s', dest) →
      dest = pre ++ n ∧ Scope.WF pre s' ∧
      s'.get n = .ok ⟨ty, pre ++ n, none⟩ ∧
      (∀ q d cn, s.get q = .ok ⟨d, cn, none⟩ → q ≠ n →
        s'.get q = .ok ⟨d, cn, none⟩) := by
  intro n
  induction n with
  | nil =>
    intro s pre s' dest hwf h
    rw [Scope.add_identifier] at h
    exact Res.noConfusion h
  | cons a rest ih =>
    intro s pre s' dest hwf h
    rcases hwf with ⟨hname, hsubs⟩
    cases rest with
    | nil =>
      rw [Scope.add_identifier] at h
      injection h with h2
      injection h2 with h3 h4
      subst h3
      subst h4
      refine ⟨?_, ?_, ?_, ?_⟩
      · rw [ScopedName.appended, hname]
      · exact Scope.WF.mk hname hsubs
      · rw [scope_get_single]
        simp only [scope_mk_identifiers, scope_mk_full_name, alookup_ainsert_same,
          ScopedName.appended, hname]
      · intro q d cn hq hne
        cases q with
        | nil =>
          rw [Scope.get] at hq
          exact Res.noConfusion hq
        | cons x xs =>
          cases xs with
          | nil =>
            have hxa : x ≠ a := fun he => hne (by rw [he])
            rw [scope_get_single] at hq ⊢
            simp only [scope_mk_identifiers, scope_mk_subscopes, scope_mk_full_name]
            rw [alookup_ainsert_other _ _ _ _ (Ne.symm hxa)]
            exact hq
          | cons y ys =>
            rw [scope_get_cons] at hq ⊢
            simp only [scope_mk_identifiers, scope_mk_subscopes, scope_mk_full_name]
            cases halo : alookup s.subscopes x with
            | some sc =>
              simp only [halo] at hq ⊢
              exact hq
            | none =>
              simp only [halo] at hq
              cases hid : alookup s.identifiers x with
              | some ty0 =>
                rw [hid] at hq
                simp at hq
              | none =>
                rw [hid] at hq
                simp at hq
    | cons b bs =>
      cases hrec : (match alookup s.subscopes a with
          | some sc => sc
          | none => Scope.new (s.full_name.appended a)).add_identifier (b :: bs) ty with
      | ok r =>
        obtain ⟨sub2, d2⟩ := r
        rw [Scope.add_identifier] at h
        simp only [hrec] at h
        injection h with h2
        injection h2 with h3 h4
        subst h3
        subst h4
        have hwfsub : Scope.WF (pre.appended a)
            (match alookup s.subscopes a with
              | some sc => sc
              | none => Scope.new (s.full_name.appended a)) := by
          cases halo : alookup s.subscopes a with
          | some sc =>
            simp only [halo]
            exact hsubs a sc (alookup_mem _ _ _ halo)
          | none =>
            simp only [halo]
            refine Scope.WF.mk ?_ ?_
            · rw [Scope.new, scope_mk_full_name, ScopedName.appended,
                ScopedName.appended, hname]
            · intro k sub hmem
              rw [Scope.new, scope_mk_subscopes] at hmem
              simp at hmem
        obtain ⟨hd2, hwf2, hget2, hpres2⟩ := ih _ (pre.appended a) sub2 d2 hwfsub hrec
        refine ⟨?_, ?_, ?_, ?_⟩
        · rw [hd2]
          simp [ScopedName.appended]
        · refine Scope.WF.mk hname ?_
          intro k sub hmem
          rw [scope_mk_subscopes] at hmem
          rcases ainsert_mem _ _ _ _ _ hmem with ⟨hk, hv⟩ | hmem2
          · subst hk
            subst hv
            exact hwf2
          · exact hsubs k sub hmem2
        · rw [scope_get_cons]
          simp only [scope_mk_subscopes, alookup_ainsert_same]
          rw [hget2]
          simp [ScopedName.appended]
        · intro q d cn hq hne
          cases q with
          | nil =>
            rw [Scope.get] at hq
            exact Res.noConfusion hq
          | cons x xs =>
            by_cases hxa : x = a
            · subst hxa
              cases xs with
              | nil =>
                rw [scope_get_single] at hq ⊢
                simp only [scope_mk_identifiers, scope_mk_subscopes, scope_mk_full_name]
                cases hid : alookup s.identifiers x with
                | some ty0 =>
                  simp only [hid] at hq ⊢
                  exact hq
                | none =>
                  simp only [hid] at hq
                  cases hb : (alookup s.subscopes x).isSome <;> rw [hb] at hq <;> simp at hq
              | cons y ys =>
                have hne2 : (y :: ys) ≠ (b :: bs) := fun he => hne (by rw [he])
                rw [scope_get_cons] at hq ⊢
                simp only [scope_mk_identifiers, scope_mk_subscopes, scope_mk_full_name,
                  alookup_ainsert_same]
                cases halo : alookup s.subscopes x with
                | some sc =>
                  simp only [halo] at hq hpres2
                  exact hpres2 (y :: ys) d cn hq hne2
                | none =>
                  simp only [halo] at hq
                  cases hid : alookup s.identifiers x with
                  | some ty0 =>
                    rw [hid] at hq
                    simp at hq
                  | none =>
                    rw [hid] at hq
                    simp at hq
            · cases xs with
              | nil =>
                rw [scope_get_single] at hq ⊢
                simp only [scope_mk_identifiers, scope_mk_subscopes, scope_mk_full_name]
                rw [alookup_ainsert_other _ _ _ _ (Ne.symm hxa)]
                exact hq
              | cons y ys =>
                rw [scope_get_cons] at hq ⊢
                simp only [scope_mk_identifiers, scope_mk_subscopes, scope_mk_full_name]
                rw [alookup_ainsert_other _ _ _ _ (Ne.symm hxa)]
                exact hq
      | err e =>
        rw [Scope.add_identifier] at h
        simp only [hrec] at h
        exact Res.noConfusion h
      | panicked =>
        rw [Scope.add_identifier] at h
        simp only [hrec] at h
        exact Res.noConfusion h
      | outOfFuel =>
        rw [Scope.add_identifier] at h
        simp only [hrec] at h
        exact Res.noConfusion h

/-- Projection of an explicitly built identifier table: its flat map. -/
theorem ids_mk_identifiers (st : ScopeTracker) (r : Scope)
    (i : List (ScopedName × IdentifierDefinitionType)) :
    (Identifiers.mk st r i).identifiers = i := rfl

/-- Projection of an explicitly built identifier table: its tree root. -/
theorem ids_mk_root (st : ScopeTracker) (r : Scope)
    (i : List (ScopedName × IdentifierDefinitionType)) :
    (Identifiers.mk st r i).root = r := rfl

/-- `Identifiers::add_identifier` preserves the C8 invariant. -/
theorem identifiers_add_inv (ids ids' : Identifiers) (name : ScopedName)
    (ty : IdentifierDefinitionType)
    (hwf : Scope.WF [] ids.root)
    (hinv : ∀ q d, alookup ids.identifiers q = some d →
      ids.root.get q = .ok ⟨d, q, none⟩)
    (h : ids.add_identifier name ty = .ok ids') :
    Scope.WF [] ids'.root ∧
    ∀ q d, alookup ids'.identifiers q = some d →
      ids'.root.get q = .ok ⟨d, q, none⟩ := by
  rw [Identifiers.add_identifier] at h
  cases hr : ids.root.add_identifier name ty with
  | ok r =>
    obtain ⟨root2, dest⟩ := r
    simp only [hr] at h
    injection h with h2
    subst h2
    obtain ⟨hdest, hwf2, hget2, hpres2⟩ := scope_add_get ty name ids.root [] root2 dest hwf hr
    rw [List.nil_append] at hdest
    subst hdest
    constructor
    · exact hwf2
    · intro q d hq
      rw [ids_mk_identifiers] at hq
      rw [ids_mk_root]
      by_cases hqn : q = dest
      · subst hqn
        rw [alookup_ainsert_same] at hq
        injection hq with h3
        subst h3
        simpa using hget2
      · rw [alookup_ainsert_other _ _ _ _ (Ne.symm hqn)] at hq
        exact hpres2 q d q (hinv q d hq) hqn
  | err e =>
    simp only [hr] at h
    exact Res.noConfusion h
  | panicked =>
    simp only [hr] at h
    exact Res.noConfusion h
  | outOfFuel =>
    simp only [hr] at h
    exact Res.noConfusion h

/-- A successful `add_name_definition` always delegates to `add_identifier`
with the same arguments. -/
theorem add_name_definition_ok (ids ids' : Identifiers) (name : ScopedName)
    (ty : IdentifierDefinitionType) (loc : Loc) (req : Bool)
    (h : ids.add_name_definition name ty loc req = .ok ids') :
    ids.add_identifier name ty = .ok ids' := by
  rw [Identifiers.add_name_definition] at h
  cases hg : ids.get_by_full_name name with
  | some d0 =>
    simp only [hg] at h
    cases hu : d0.as_unresolved with
    | some unres =>
      simp only [hu] at h
      by_cases hm : (!(ty.has_matching_type unres)) = true
      · rw [if_pos hm] at h
        exact Res.noConfusion h
      · rw [if_neg hm] at h
        exact h
    | none =>
      simp only [hu] at h
      exact Res.noConfusion h
  | none =>
    simp only [hg] at h
    by_cases hr : req = true
    · rw [if_pos hr] at h
      exact Res.noConfusion h
    · rw [if_neg hr] at h
      exact h

/-- The C8 invariant holds after any successful run of table operations
from any state satisfying it. -/
theorem runTableOps_inv :
    ∀ (ops : List TableOp) (ids ids' : Identifiers),
      Scope.WF [] ids.root →
      (∀ q d, alookup ids.identifiers q = some d →
        ids.root.get q = .ok ⟨d, q, none⟩) →
      runTableOps ids ops = .ok ids' →
      Scope.WF [] ids'.root ∧
      ∀ q d, alookup ids'.identifiers q = some d →
        ids'.root.get q = .ok ⟨d, q, none⟩ := by
  intro ops
  induction ops with
  | nil =>
    intro ids ids' hwf hinv h
    rw [runTableOps] at h
    injection h with h2
    subst h2
    exact ⟨hwf, hinv⟩
  | cons op rest ih =>
    intro ids ids' hwf hinv h
    rw [runTableOps] at h
    cases hap : applyTableOp ids op with
    | ok ids1 =>
      simp only [hap] at h
      cases op with
      | add name ty =>
        obtain ⟨hwf1, hinv1⟩ := identifiers_add_inv ids ids1 name ty hwf hinv hap
        exact ih ids1 ids' hwf1 hinv1 h
      | addDef name ty loc req =>
        obtain ⟨hwf1, hinv1⟩ := identifiers_add_inv ids ids1 name ty hwf hinv
          (add_name_definition_ok ids ids1 name ty loc req hap)
        exact ih ids1 ids' hwf1 hinv1 h
    | err e =>
      simp only [hap] at h
      exact ih ids ids' hwf hinv h
    | panicked =>
      simp only [hap] at h
      exact Res.noConfusion h
    | outOfFuel =>
      simp only [hap] at h
      exact Res.noConfusion h

/-- C8.  Starting from the empty table, after any sequence of
`add_identifier` and `add_name_definition` calls, every entry of the flat
identifier map resolves through the scope tree from the root to the same
definition with no un-consumed remainder. -/
theorem claim_C8_flat_tree_invariant :
    ∀ (ops : List TableOp) (ids' : Identifiers),
      runTableOps {} ops = .ok ids' →
      ∀ name d, alookup ids'.identifiers name = some d →
        ids'.root.get name = .ok ⟨d, name, none⟩ := by
  intro ops ids' h
  refine (runTableOps_inv ops {} ids' (Scope.WF.mk rfl ?_) ?_ h).2
  · intro k sub hmem
    simp at hmem
  · intro q d hq
    simp at hq

/-- Witness for C8: one concrete write, and the resulting flat entry
resolves through the tree. -/
theorem claim_C8_flat_tree_invariant_witness :
    (⟨{}, .mk [] [] [("x", .constDef)], [(["x"], .constDef)]⟩ : Identifiers).root.get ["x"]
      = .ok ⟨.constDef, ["x"], none⟩ :=
  claim_C8_flat_tree_invariant [.add ["x"] .constDef]
    ⟨{}, .mk [] [] [("x", .constDef)], [(["x"], .constDef)]⟩
    (by simp) ["x"] .constDef (by simp)

/-! #### C6: circular imports are detected -/

/-- A key found in a prefix is found in the whole list. -/
theorem alookup_append_of_some {κ ν : Type} [DecidableEq κ] :
    ∀ (l1 l2 : List (κ × ν)) (k : κ) (v : ν),
      alookup l1 k = some v → alookup (l1 ++ l2) k = some v := by
  intro l1 l2 k v h
  induction l1 with
  | nil => simp at h
  | cons p rest ih =>
    obtain ⟨k0, v0⟩ := p
    rw [alookup_cons] at h
    rw [List.cons_append, alookup_cons]
    by_cases hk : k0 = k
    · rw [if_pos hk] at h ⊢
      exact h
    · rw [if_neg hk] at h ⊢
      exact ih h

/-- A key absent from a prefix is looked up in the suffix. -/
theorem alookup_append_of_none {κ ν : Type} [DecidableEq κ] :
    ∀ (l1 l2 : List (κ × ν)) (k : κ),
      alookup l1 k = none → alookup (l1 ++ l2) k = alookup l2 k := by
  intro l1 l2 k h
  induction l1 with
  | nil => simp
  | cons p rest ih =>
    obtain ⟨k0, v0⟩ := p
    rw [alookup_cons] at h
    rw [List.cons_append, alookup_cons]
    by_cases hk : k0 = k
    · rw [if_pos hk] at h
      exact Option.noConfusion h
    · rw [if_neg hk] at h ⊢
      exact ih h

/-- Inserting an absent key appends it at the end. -/
theorem ainsert_absent {κ ν : Type} [DecidableEq κ] :
    ∀ (l : List (κ × ν)) (k : κ) (v : ν),
      alookup l k = none → ainsert l k v = l ++ [(k, v)] := by
  intro l k v h
  induction l with
  | nil => rfl
  | cons p rest ih =>
    obtain ⟨k0, v0⟩ := p
    rw [alookup_cons] at h
    rw [ainsert_cons]
    by_cases hk : k0 = k
    · rw [if_pos hk] at h
      exact Option.noConfusion h
    · rw [if_neg hk] at h
      rw [if_neg hk, List.cons_append, ih h]

/-- The dead `%lang` extraction (see C10): always `Ok(None)`. -/
theorem lang_none (f : CairoFile) : LangVisitor.lang f = .ok none := by
  have h := pureImport_file langVisitor_pure none f
  simp only [LangVisitor.lang, h, Res.bind_ok, foldl_const]

/-- Every entry of a `POList` was read from the reader and has all of its
direct dependencies in the list. -/
theorem POList_closure {reader : String → Option CairoFile} :
    ∀ {l : List (String × CairoFile)}, POList reader l →
      ∀ m f, alookup l m = some f →
        reader m = some f ∧ ∀ d, d ∈ fileDeps f → (alookup l d).isSome = true := by
  intro l h
  induction h with
  | nil => intro m f hm; simp at hm
  | @snoc l0 m0 f0 hl hread hdeps hnew ih =>
    intro m f hm
    cases halo : alookup l0 m with
    | some f1 =>
      have h1 := alookup_append_of_some l0 [(m0, f0)] m f1 halo
      rw [h1] at hm
      injection hm with h2
      subst h2
      obtain ⟨hr, hd⟩ := ih m f1 halo
      refine ⟨hr, ?_⟩
      intro d hdm
      obtain ⟨v, hv⟩ := Option.isSome_iff_exists.mp (hd d hdm)
      rw [alookup_append_of_some l0 [(m0, f0)] d v hv]
      rfl
    | none =>
      rw [alookup_append_of_none l0 [(m0, f0)] m halo, alookup_cons] at hm
      by_cases hk : m0 = m
      · rw [if_pos hk] at hm
        injection hm with h2
        subst h2
        subst hk
        refine ⟨hread, ?_⟩
        intro d hdm
        obtain ⟨v, hv⟩ := Option.isSome_iff_exists.mp (hdeps d hdm)
        rw [alookup_append_of_some l0 _ d v hv]
        rfl
      · rw [if_neg hk] at hm
        exact Option.noConfusion hm

/-- The key set of a `POList` is closed under import reachability. -/
theorem POList_reach_closed {reader : String → Option CairoFile}
    {l : List (String × CairoFile)} (hl : POList reader l) :
    ∀ y z, (alookup l y).isSome = true → ImportReaches reader y z →
      (alookup l z).isSome = true := by
  intro y z hy hr
  have h' : Relation.ReflTransGen (ImportEdge reader) y z := hr
  clear hr
  induction h' with
  | refl => exact hy
  | tail hp he ih =>
    obtain ⟨f, hrd, hdf⟩ := he
    obtain ⟨fw, hfw⟩ := Option.isSome_iff_exists.mp ih
    obtain ⟨hrw, hdw⟩ := POList_closure hl _ _ hfw
    rw [hrd] at hrw
    injection hrw with h2
    subst h2
    exact hdw _ hdf

/-- A `POList` admits no import cycle through any of its keys. -/
theorem POList_no_cycle {reader : String → Option CairoFile} :
    ∀ {l : List (String × CairoFile)}, POList reader l →
      ∀ x y, (alookup l x).isSome = true → ImportEdge reader x y →
        ImportReaches reader y x → False := by
  intro l h
  induction h with
  | nil => intro x y hx; simp at hx
  | @snoc l0 m0 f0 hl hread hdeps hnew ih =>
    intro x y hx hedge hreach
    cases halo : alookup l0 x with
    | some fx =>
      exact ih x y (by rw [halo]; rfl) hedge hreach
    | none =>
      rw [alookup_append_of_none l0 [(m0, f0)] x halo, alookup_cons] at hx
      by_cases hk : m0 = x
      · subst hk
        obtain ⟨f, hrdx, hdx⟩ := hedge
        rw [hread] at hrdx
        injection hrdx with hf
        subst hf
        have hy : (alookup l0 y).isSome = true := hdeps y hdx
        have hx0 := POList_reach_closed hl y m0 hy hreach
        rw [hnew] at hx0
        exact Bool.noConfusion hx0
      · rw [if_neg hk] at hx
        simp at hx

/-- Projection of an explicitly built import state: ancestor stack. -/
theorem importSt_mk_anc (a : List String) (cf : List (String × CairoFile))
    (lg : List (String × Option String)) :
    (ImportSt.mk a cf lg).current_ancestors = a := rfl

/-- Projection of an explicitly built import state: collected files. -/
theorem importSt_mk_coll (a : List String) (cf : List (String × CairoFile))
    (lg : List (String × Option String)) :
    (ImportSt.mk a cf lg).collected_files = cf := rfl

/-- Projection of an explicitly built import state: recorded langs. -/
theorem importSt_mk_langs (a : List String) (cf : List (String × CairoFile))
    (lg : List (String × Option String)) :
    (ImportSt.mk a cf lg).langs = lg := rfl

/-- Every `%lang` value the import collector records is `none` (the
consequence of the dead `visit_lang` hook, see C10). -/
theorem collect_langs_none (reader : String → Option CairoFile) :
    ∀ n : Nat,
      (∀ st current st', collectImports reader n st current = .ok st' →
        (∀ p v, alookup st.langs p = some v → v = none) →
        (∀ p v, alookup st'.langs p = some v → v = none)) ∧
      (∀ deps st lang st', collectDeps reader n st lang deps = .ok st' →
        (∀ p v, alookup st.langs p = some v → v = none) →
        (∀ p v, alookup st'.langs p = some v → v = none)) := by
  intro n
  induction n using Nat.strong_induction_on with
  | _ n ih =>
    cases n with
    | zero =>
      constructor
      · intro st current st' h hst
        rw [collectImports] at h
        exact Res.noConfusion h
      · intro deps st lang st' h hst
        cases deps with
        | nil =>
          rw [collectDeps] at h
          injection h with h2
          subst h2
          exact hst
        | cons pkg rest =>
          rw [collectDeps, collectImports, Res.bind_outOfFuel] at h
          exact Res.noConfusion h
    | succ fuel =>
      have hCD := (ih fuel (Nat.lt_succ_self _)).2
      have hCI : ∀ st current st', collectImports reader (fuel + 1) st current = .ok st' →
          (∀ p v, alookup st.langs p = some v → v = none) →
          (∀ p v, alookup st'.langs p = some v → v = none) := by
        intro st current st' h hst
        rw [collectImports] at h
        by_cases hanc : st.current_ancestors.contains current = true
        · rw [if_pos hanc] at h
          exact Res.noConfusion h
        · rw [if_neg hanc] at h
          by_cases hcol : (alookup st.collected_files current).isSome = true
          · rw [if_pos hcol] at h
            injection h with h2
            subst h2
            exact hst
          · rw [if_neg hcol] at h
            cases hrd : reader current with
            | none =>
              simp only [hrd] at h
              exact Res.noConfusion h
            | some f =>
              simp only [hrd, lang_none, Res.bind_ok, deps_eq_fileDeps] at h
              cases hcd : collectDeps reader fuel
                  { st with current_ancestors := st.current_ancestors ++ [current] }
                  none (fileDeps f) with
              | ok st2 =>
                simp only [hcd, Res.bind_ok] at h
                injection h with h2
                subst h2
                intro p v hp
                rw [importSt_mk_langs] at hp
                have hst2 := hCD (fileDeps f) _ none st2 hcd hst
                by_cases hpc : p = current
                · subst hpc
                  rw [alookup_ainsert_same] at hp
                  injection hp with h3
                  exact h3.symm
                · rw [alookup_ainsert_other _ _ _ _ (Ne.symm hpc)] at hp
                  exact hst2 p v hp
              | err e =>
                simp only [hcd, Res.bind_err] at h
                exact Res.noConfusion h
              | panicked =>
                simp only [hcd, Res.bind_panicked] at h
                exact Res.noConfusion h
              | outOfFuel =>
                simp only [hcd, Res.bind_outOfFuel] at h
                exact Res.noConfusion h
      refine ⟨hCI, ?_⟩
      intro deps
      induction deps with
      | nil =>
        intro st lang st' h hst
        rw [collectDeps] at h
        injection h with h2
        subst h2
        exact hst
      | cons pkg rest ihd =>
        intro st lang st' h hst
        rw [collectDeps] at h
        cases hci : collectImports reader (fuel + 1) st pkg with
        | ok st1 =>
          simp only [hci, Res.bind_ok] at h
          split at h
          · exact Res.noConfusion h
          · exact ihd st1 lang st' h (hCI st pkg st1 hci hst)
        | err e =>
          simp only [hci, Res.bind_err] at h
          exact Res.noConfusion h
        | panicked =>
          simp only [hci, Res.bind_panicked] at h
          exact Res.noConfusion h
        | outOfFuel =>
          simp only [hci, Res.bind_outOfFuel] at h
          exact Res.noConfusion h

set_option maxHeartbeats 1000000 in
/-- What a successful import DFS guarantees: the ancestor stack is
restored, the collected list only grows at the end, uncollected ancestors
stay uncollected, the visited module (every listed dependency) ends up
collected, and the `POList` shape is preserved. -/
theorem collect_ok_inv (reader : String → Option CairoFile) :
    ∀ n : Nat,
      (∀ st current st', collectImports reader n st current = .ok st' →
        st'.current_ancestors = st.current_ancestors ∧
        (∃ t, st'.collected_files = st.collected_files ++ t) ∧
        (∀ m, m ∈ st.current_ancestors → alookup st.collected_files m = none →
          alookup st'.collected_files m = none) ∧
        (alookup st'.collected_files current).isSome = true ∧
        (POList reader st.collected_files → POList reader st'.collected_files)) ∧
      (∀ deps st lang st', collectDeps reader n st lang deps = .ok st' →
        st'.current_ancestors = st.current_ancestors ∧
        (∃ t, st'.collected_files = st.collected_files ++ t) ∧
        (∀ m, m ∈ st.current_ancestors → alookup st.collected_files m = none →
          alookup st'.collected_files m = none) ∧
        (∀ pkg, pkg ∈ deps → (alookup st'.collected_files pkg).isSome = true) ∧
        (POList reader st.collected_files → POList reader st'.collected_files)) := by
  intro n
  induction n using Nat.strong_induction_on with
  | _ n ih =>
    cases n with
    | zero =>
      constructor
      · intro st current st' h
        rw [collectImports] at h
        exact Res.noConfusion h
      · intro deps st lang st' h
        cases deps with
        | nil =>
          rw [collectDeps] at h
          injection h with h2
          subst h2
          exact ⟨rfl, ⟨[], by rw [List.append_nil]⟩, fun m _ hm => hm,
            fun pkg hp => absurd hp (List.not_mem_nil _), fun hp => hp⟩
        | cons pkg rest =>
          rw [collectDeps, collectImports, Res.bind_outOfFuel] at h
          exact Res.noConfusion h
    | succ fuel =>
      have hCD := (ih fuel (Nat.lt_succ_self _)).2
      have hCI : ∀ st current st', collectImports reader (fuel + 1) st current = .ok st' →
          st'.current_ancestors = st.current_ancestors ∧
          (∃ t, st'.collected_files = st.collected_files ++ t) ∧
          (∀ m, m ∈ st.current_ancestors → alookup st.collected_files m = none →
            alookup st'.collected_files m = none) ∧
          (alookup st'.collected_files current).isSome = true ∧
          (POList reader st.collected_files → POList reader st'.collected_files) := by
        intro st current st' h
        rw [collectImports] at h
        by_cases hanc : st.current_ancestors.contains current = true
        · rw [if_pos hanc] at h
          exact Res.noConfusion h
        · rw [if_neg hanc] at h
          by_cases hcol : (alookup st.collected_files current).isSome = true
          · rw [if_pos hcol] at h
            injection h with h2
            subst h2
            exact ⟨rfl, ⟨[], by rw [List.append_nil]⟩, fun m _ hm => hm, hcol,
              fun hp => hp⟩
          · rw [if_neg hcol] at h
            have hnc : current ∉ st.current_ancestors := by
              intro hm
              exact hanc (by simpa using hm)
            have hcoln : alookup st.collected_files current = none := by
              cases halo : alookup st.collected_files current with
              | none => rfl
              | some f0 => exact absurd (by rw [halo]; rfl) hcol
            cases hrd : reader current with
            | none =>
              simp only [hrd] at h
              exact Res.noConfusion h
            | some f =>
              simp only [hrd, lang_none, Res.bind_ok, deps_eq_fileDeps] at h
              cases hcd : collectDeps reader fuel
                  { st with current_ancestors := st.current_ancestors ++ [current] }
                  none (fileDeps f) with
              | ok st2 =>
                simp only [hcd, Res.bind_ok] at h
                injection h with h2
                subst h2
                obtain ⟨hanc2, ⟨t, hext⟩, hkeep2, hpkg2, hpol2⟩ :=
                  hCD (fileDeps f) _ none st2 hcd
                rw [importSt_mk_anc] at hanc2
                rw [importSt_mk_coll] at hext
                have hnone2 : alookup st2.collected_files current = none := by
                  have := hkeep2 current
                    (List.mem_append_right _ (List.mem_singleton.mpr rfl))
                  rw [importSt_mk_coll] at this
                  exact this hcoln
                have hfin : (ImportSt.mk st2.current_ancestors.dropLast
                    (ainsert st2.collected_files current f)
                    (ainsert st2.langs current none)).collected_files
                    = st2.collected_files ++ [(current, f)] := by
                  rw [importSt_mk_coll, ainsert_absent _ _ _ hnone2]
                refine ⟨?_, ?_, ?_, ?_, ?_⟩
                · rw [importSt_mk_anc, hanc2, List.dropLast_concat]
                · refine ⟨t ++ [(current, f)], ?_⟩
                  rw [hfin, hext, List.append_assoc]
                · intro m hm hmn
                  rw [hfin]
                  have hm2 : alookup st2.collected_files m = none := by
                    have := hkeep2 m (List.mem_append_left _ hm)
                    rw [importSt_mk_coll] at this
                    exact this hmn
                  rw [alookup_append_of_none _ _ _ hm2, alookup_cons]
                  have hmc : current ≠ m := fun he => hnc (he ▸ hm)
                  rw [if_neg hmc]
                  rfl
                · rw [hfin]
                  rw [alookup_append_of_none _ _ _ hnone2, alookup_cons,
                    if_pos rfl]
                  rfl
                · intro hpol
                  rw [hfin]
                  refine POList.snoc ?_ hrd ?_ hnone2
                  · have := hpol2
                    rw [importSt_mk_coll] at this
                    exact this hpol
                  · intro d hd
                    exact hpkg2 d hd
              | err e =>
                simp only [hcd, Res.bind_err] at h
                exact Res.noConfusion h
              | panicked =>
                simp only [hcd, Res.bind_panicked] at h
                exact Res.noConfusion h
              | outOfFuel =>
                simp only [hcd, Res.bind_outOfFuel] at h
                exact Res.noConfusion h
      refine ⟨hCI, ?_⟩
      intro deps
      induction deps with
      | nil =>
        intro st lang st' h
        rw [collectDeps] at h
        injection h with h2
        subst h2
        exact ⟨rfl, ⟨[], by rw [List.append_nil]⟩, fun m _ hm => hm,
          fun pkg hp => absurd hp (List.not_mem_nil _), fun hp => hp⟩
      | cons pkg rest ihd =>
        intro st lang st' h
        rw [collectDeps] at h
        cases hci : collectImports reader (fuel + 1) st pkg with
        | ok st1 =>
          simp only [hci, Res.bind_ok] at h
          split at h
          · exact Res.noConfusion h
          · obtain ⟨hanc1, ⟨t1, hext1⟩, hkeep1, hp1, hpol1⟩ := hCI st pkg st1 hci
            obtain ⟨hanc2, ⟨t2, hext2⟩, hkeep2, hp2, hpol2⟩ := ihd st1 lang st' h
            refine ⟨hanc2.trans hanc1, ⟨t1 ++ t2, ?_⟩, ?_, ?_, fun hp => hpol2 (hpol1 hp)⟩
            · rw [hext2, hext1, List.append_assoc]
            · intro m hm hmn
              exact hkeep2 m (hanc1 ▸ hm) (hkeep1 m hm hmn)
            · intro q hq
              rcases List.mem_cons.mp hq with hq | hq
              · subst hq
                obtain ⟨v, hv⟩ := Option.isSome_iff_exists.mp hp1
                rw [hext2, alookup_append_of_some _ _ _ _ hv]
                rfl
              · exact hp2 q hq
        | err e =>
          simp only [hci, Res.bind_err] at h
          exact Res.noConfusion h
        | panicked =>
          simp only [hci, Res.bind_panicked] at h
          exact Res.noConfusion h
        | outOfFuel =>
          simp only [hci, Res.bind_outOfFuel] at h
          exact Res.noConfusion h

set_option maxHeartbeats 1000000 in
/-- Classification of the import DFS outcome: when every module reachable
from the start is readable and all recorded langs are `none`, the DFS can
only run out of fuel, succeed, or report a circular dependency. -/
theorem collect_class (reader : String → Option CairoFile) :
    ∀ n : Nat,
      (∀ st current,
        (∀ x, ImportReaches reader current x → (reader x).isSome = true) →
        (∀ p v, alookup st.langs p = some v → v = none) →
        (collectImports reader n st current = .outOfFuel ∨
         (∃ st', collectImports reader n st current = .ok st') ∨
         (∃ chain, collectImports reader n st current
            = .err (.circularDependencies chain)))) ∧
      (∀ deps st lang,
        (∀ pkg, pkg ∈ deps → ∀ x, ImportReaches reader pkg x →
          (reader x).isSome = true) →
        (∀ p v, alookup st.langs p = some v → v = none) →
        lang = none →
        (collectDeps reader n st lang deps = .outOfFuel ∨
         (∃ st', collectDeps reader n st lang deps = .ok st') ∨
         (∃ chain, collectDeps reader n st lang deps
            = .err (.circularDependencies chain)))) := by
  intro n
  induction n using Nat.strong_induction_on with
  | _ n ih =>
    cases n with
    | zero =>
      constructor
      · intro st current hrdble hlangs
        exact Or.inl (by rw [collectImports])
      · intro deps st lang hrdble hlangs hln
        cases deps with
        | nil => exact Or.inr (Or.inl ⟨st, by rw [collectDeps]⟩)
        | cons pkg rest =>
          exact Or.inl (by rw [collectDeps, collectImports, Res.bind_outOfFuel])
    | succ fuel =>
      have hCDc := (ih fuel (Nat.lt_succ_self _)).2
      have hCIc : ∀ st current,
          (∀ x, ImportReaches reader current x → (reader x).isSome = true) →
          (∀ p v, alookup st.langs p = some v → v = none) →
          (collectImports reader (fuel + 1) st current = .outOfFuel ∨
           (∃ st', collectImports reader (fuel + 1) st current = .ok st') ∨
           (∃ chain, collectImports reader (fuel + 1) st current
              = .err (.circularDependencies chain))) := by
        intro st current hrdble hlangs
        by_cases hanc : st.current_ancestors.contains current = true
        · exact Or.inr (Or.inr ⟨st.current_ancestors,
            by rw [collectImports, if_pos hanc]⟩)
        · by_cases hcol : (alookup st.collected_files current).isSome = true
          · exact Or.inr (Or.inl ⟨st,
              by rw [collectImports, if_neg hanc, if_pos hcol]⟩)
          · cases hrd : reader current with
            | none =>
              have := hrdble current Relation.ReflTransGen.refl
              rw [hrd] at this
              exact Bool.noConfusion this
            | some f =>
              have hdeps : ∀ pkg, pkg ∈ fileDeps f → ∀ x,
                  ImportReaches reader pkg x → (reader x).isSome = true := by
                intro pkg hpkg x hx
                exact hrdble x (Relation.ReflTransGen.head ⟨f, hrd, hpkg⟩ hx)
              have hlng1 : ∀ p v, alookup
                  ({ st with current_ancestors := st.current_ancestors ++ [current] }
                    : ImportSt).langs p = some v → v = none := hlangs
              rcases hCDc (fileDeps f)
                  { st with current_ancestors := st.current_ancestors ++ [current] }
                  none hdeps hlng1 rfl with hcd | ⟨st2, hcd⟩ | ⟨chain, hcd⟩
              · refine Or.inl ?_
                rw [collectImports, if_neg hanc, if_neg hcol]
                simp only [hrd, lang_none, Res.bind_ok, deps_eq_fileDeps, hcd,
                  Res.bind_outOfFuel]
              · refine Or.inr (Or.inl ⟨⟨st2.current_ancestors.dropLast,
                  ainsert st2.collected_files current f,
                  ainsert st2.langs current none⟩, ?_⟩)
                rw [collectImports, if_neg hanc, if_neg hcol]
                simp only [hrd, lang_none, Res.bind_ok, deps_eq_fileDeps, hcd]
              · refine Or.inr (Or.inr ⟨chain, ?_⟩)
                rw [collectImports, if_neg hanc, if_neg hcol]
                simp only [hrd, lang_none, Res.bind_ok, deps_eq_fileDeps, hcd,
                  Res.bind_err]
      refine ⟨hCIc, ?_⟩
      intro deps
      induction deps with
      | nil =>
        intro st lang hrdble hlangs hln
        exact Or.inr (Or.inl ⟨st, by rw [collectDeps]⟩)
      | cons pkg rest ihd =>
        intro st lang hrdble hlangs hln
        rcases hCIc st pkg (hrdble pkg (List.mem_cons_self _ _)) hlangs
          with hci | ⟨st1, hci⟩ | ⟨chain, hci⟩
        · refine Or.inl ?_
          rw [collectDeps]
          simp only [hci, Res.bind_outOfFuel]
        · have hLN1 := (collect_langs_none reader (fuel + 1)).1 st pkg st1 hci hlangs
          have hsame : (match alookup st1.langs pkg with
              | some l => l == lang
              | none => true) = true := by
            cases hl : alookup st1.langs pkg with
            | some l =>
              have hv := hLN1 pkg l hl
              subst hv
              subst hln
              rfl
            | none => rfl
          have hcond : (!(match alookup st1.langs pkg with
              | some l => l == lang
              | none => true)) ≠ true := by
            rw [hsame]
            decide
          rcases ihd st1 lang (fun q hq => hrdble q (List.mem_cons_of_mem _ hq))
            hLN1 hln with hrest | ⟨st', hrest⟩ | ⟨chain, hrest⟩
          · refine Or.inl ?_
            rw [collectDeps]
            simp only [hci, Res.bind_ok]
            rw [if_neg hcond]
            exact hrest
          · refine Or.inr (Or.inl ⟨st', ?_⟩)
            rw [collectDeps]
            simp only [hci, Res.bind_ok]
            rw [if_neg hcond]
            exact hrest
          · refine Or.inr (Or.inr ⟨chain, ?_⟩)
            rw [collectDeps]
            simp only [hci, Res.bind_ok]
            rw [if_neg hcond]
            exact hrest
        · refine Or.inr (Or.inr ⟨chain, ?_⟩)
          rw [collectDeps]
          simp only [hci, Res.bind_err]

/-- Only `a` and `b` are reachable from `a` in the two-module example. -/
theorem readerAB_reach : ∀ x, ImportReaches readerAB "a" x → x = "a" ∨ x = "b" := by
  intro x hx
  have h' : Relation.ReflTransGen (ImportEdge readerAB) "a" x := hx
  clear hx
  induction h' with
  | refl => exact Or.inl rfl
  | tail hp he ih =>
    obtain ⟨f, hrf, hdf⟩ := he
    rcases ih with h | h
    · subst h
      have h2 : readerAB "a" = some ⟨[importInstr "b"]⟩ := by simp
      rw [h2] at hrf
      injection hrf with h3
      subst h3
      refine Or.inr ?_
      simpa [(by decide : ".".intercalate ["b"] = "b")] using hdf
    · subst h
      have h2 : readerAB "b" = some ⟨[importInstr "a"]⟩ := by simp
      rw [h2] at hrf
      injection hrf with h3
      subst h3
      refine Or.inl ?_
      simpa [(by decide : ".".intercalate ["a"] = "a")] using hdf

set_option maxHeartbeats 1000000 in
/-- C6.  When the import graph reachable from the starting module
contains a module lying on a cycle (it imports a module from which it is
itself reachable), and every reachable module is readable, import
collection cannot succeed: unless it runs out of fuel it fails with a
`CircularDependencies` error carrying the ancestor chain at the point of
detection.  Concretely, with module `a` importing `b` and `b` importing
`a`, collection from `a` fails with the chain `["a", "b"]`. -/
theorem claim_C6_circular_imports :
    (∀ (reader : String → Option CairoFile) (fuel : Nat) (start m d : String),
      ImportReaches reader start m →
      ImportEdge reader m d →
      ImportReaches reader d m →
      (∀ x, ImportReaches reader start x → (reader x).isSome = true) →
      collectImports reader fuel {} start ≠ .outOfFuel →
      ∃ chain, collectImports reader fuel {} start
        = .err (.circularDependencies chain)) ∧
    collectImports readerAB 10 {} "a" = .err (.circularDependencies ["a", "b"]) := by
  constructor
  · intro reader fuel start m d hsm hedge hdm hrdble hnf
    rcases (collect_class reader fuel).1 {} start hrdble
        (by intro p v hp; simp at hp) with hres | ⟨st', hres⟩ | hres
    · exact absurd hres hnf
    · exfalso
      obtain ⟨-, -, -, hstart, hpol⟩ := (collect_ok_inv reader fuel).1 {} start st' hres
      have hpol' := hpol POList.nil
      have hm := POList_reach_closed hpol' start m hstart hsm
      exact POList_no_cycle hpol' m d hm hedge hdm
    · exact hres
  · have hb : ".".intercalate ["b"] = "b" := by decide
    have ha : ".".intercalate ["a"] = "a" := by decide
    simp [hb, ha]

/-- Witness for C6: the theorem applied to the concrete two-module cycle. -/
theorem claim_C6_circular_imports_witness :
    ∃ chain, collectImports readerAB 10 {} "a"
      = .err (.circularDependencies chain) :=
  claim_C6_circular_imports.1 readerAB 10 "a" "a" "b"
    Relation.ReflTransGen.refl
    ⟨⟨[importInstr "b"]⟩, by simp,
      by simp [(by decide : ".".intercalate ["b"] = "b")]⟩
    (Relation.ReflTransGen.single ⟨⟨[importInstr "a"]⟩, by simp,
      by simp [(by decide : ".".intercalate ["a"] = "a")]⟩)
    (by intro x hx
        rcases readerAB_reach x hx with h | h <;> subst h <;> simp)
    (by have hb : ".".intercalate ["b"] = "b" := by decide
        have ha : ".".intercalate ["a"] = "a" := by decide
        simp [hb, ha])

end CairoRs
